import Mathlib

/-!
Shallow embedding of `music_mixer_logic.py` (class `MusicMixer`).

Pure helpers (regex-based BPM/key extraction, Camelot wheel, keyword
classification) are translated into executable Lean functions over character
lists.  External collaborators (librosa tempo analysis, pydub decoding and
audio transforms, the filesystem scan) are modelled by an explicit `Env`
record; the pseudorandom stream is an explicit sequence of draws in `[0,1)`
with a cursor; the metadata caches are explicit association lists; the
unbounded `while` loops are modelled with a fuel parameter where running out
of fuel (`none`) represents divergence.
-/

namespace MusicMixer

/-! ### Character classes (ASCII regex semantics) -/

/-- Regex word character `\w` = `[a-zA-Z0-9_]`. -/
def isWordChar (c : Char) : Bool := c.isAlphanum || c = '_'

/-- Character class `[\s_-]` used by the filename patterns
(`\s` = space, tab, newline, carriage return, vertical tab, form feed). -/
def isSepChar (c : Char) : Bool :=
  c = ' ' || c = '\t' || c = '\n' || c = '\r' || c = '\x0b' || c = '\x0c' ||
  c = '_' || c = '-'

/-- Character class `[AB]` under `re.IGNORECASE`. -/
def isABChar (c : Char) : Bool := c = 'A' || c = 'B' || c = 'a' || c = 'b'

/-- A word boundary `\b` holds after a word character iff the rest of the
input is empty or starts with a non-word character. -/
def boundaryAfter : List Char → Bool
  | [] => true
  | c :: _ => !(isWordChar c)

/-- Greedy `[\s_-]*`: skip separator characters.  None of the literals that
follow a separator star in the source patterns (`key`, `bpm`, a digit) is
itself a separator, so regex backtracking into the star can never succeed and
maximal munch is exact. -/
def skipSeps : List Char → List Char
  | [] => []
  | c :: rest => if isSepChar c then skipSeps rest else c :: rest

/-! ### Camelot-key regex patterns (`extract_key_from_filename`) -/

/-- Match `\b(\d{1,2}[AB])\b` at the current position; `prevOk` records
whether a word boundary holds before the position (start of string or
previous character is not a word character).  `\d{1,2}` is greedy: two
digits are tried first; the one-digit retry needs `[AB]` at the second
digit, which is impossible, so failing the two-digit branch with a second
digit present fails the position. -/
def camelot1At (prevOk : Bool) : List Char → Option (List Char)
  | d1 :: rest1 =>
    if !(d1.isDigit && prevOk) then none else
    match rest1 with
    | d2 :: rest2 =>
      if d2.isDigit then
        match rest2 with
        | l :: rest3 =>
          if isABChar l && boundaryAfter rest3 then some [d1, d2, l] else none
        | [] => none
      else if isABChar d2 && boundaryAfter rest2 then some [d1, d2]
      else none
    | [] => none
  | [] => none

/-- `re.search` for pattern `\b(\d{1,2}[AB])\b`: leftmost match. -/
def searchCamelot1 : Bool → List Char → Option (List Char)
  | _, [] => none
  | prevOk, c :: rest =>
    match camelot1At prevOk (c :: rest) with
    | some g => some g
    | none => searchCamelot1 (!(isWordChar c)) rest

/-- Match `\d{1,2}[AB]` (no boundaries), greedy on the digit count. -/
def digits12AB : List Char → Option (List Char)
  | d1 :: rest1 =>
    if !d1.isDigit then none else
    match rest1 with
    | d2 :: rest2 =>
      if d2.isDigit then
        match rest2 with
        | l :: _ => if isABChar l then some [d1, d2, l] else none
        | [] => none
      else if isABChar d2 then some [d1, d2]
      else none
    | [] => none
  | [] => none

/-- Literal `key` under `re.IGNORECASE` at the current position. -/
def isKeyLit : List Char → Bool
  | k :: e :: y :: _ => k.toLower = 'k' && e.toLower = 'e' && y.toLower = 'y'
  | _ => false

/-- Match `key[\s_-]*(\d{1,2}[AB])` at the current position. -/
def camelot2At : List Char → Option (List Char)
  | k :: e :: y :: rest =>
    if k.toLower = 'k' && e.toLower = 'e' && y.toLower = 'y' then
      digits12AB (skipSeps rest)
    else none
  | _ => none

/-- Match `(\d{1,2}[AB])[\s_-]*key` at the current position. -/
def camelot3At : List Char → Option (List Char)
  | d1 :: rest1 =>
    if !d1.isDigit then none else
    match rest1 with
    | d2 :: rest2 =>
      if d2.isDigit then
        match rest2 with
        | l :: rest3 =>
          if isABChar l && isKeyLit (skipSeps rest3) then some [d1, d2, l]
          else none
        | [] => none
      else if isABChar d2 && isKeyLit (skipSeps rest2) then some [d1, d2]
      else none
    | [] => none
  | [] => none

/-- `re.search` driver: try a position matcher at every position, leftmost
match wins. -/
def searchWith (atPos : List Char → Option (List Char)) : List Char → Option (List Char)
  | [] => atPos []
  | c :: rest =>
    match atPos (c :: rest) with
    | some g => some g
    | none => searchWith atPos rest

/-- The keys of the `CAMELOT_WHEEL` dict, in source order. -/
def camelotKeys : List String :=
  ["1A", "2A", "3A", "4A", "5A", "6A", "7A", "8A", "9A", "10A", "11A", "12A",
   "1B", "2B", "3B", "4B", "5B", "6B", "7B", "8B", "9B", "10B", "11B", "12B"]

/-- `match.group(1).upper()`. -/
def groupUpper (g : List Char) : String := (g.map Char.toUpper).asString

/-- `if match: key = match.group(1).upper(); if key in CAMELOT_WHEEL: return key`
(on failure of the wheel check the code falls through to the next pattern). -/
def tryCamelot (res : Option (List Char)) : Option String :=
  match res with
  | some g =>
    let key := groupUpper g
    if key ∈ camelotKeys then some key else none
  | none => none

/-- The `musical_keys` dict of `extract_key_from_filename`, in insertion
order (first entry whose name occurs in the lowercased filename wins). -/
def musical_keys : List (String × String) :=
  [("cmaj", "8B"), ("c major", "8B"), ("c#maj", "3B"), ("c# major", "3B"),
   ("dmaj", "10B"), ("d major", "10B"), ("d#maj", "5B"), ("d# major", "5B"),
   ("emaj", "12B"), ("e major", "12B"), ("fmaj", "7B"), ("f major", "7B"),
   ("f#maj", "2B"), ("f# major", "2B"), ("gmaj", "9B"), ("g major", "9B"),
   ("g#maj", "4B"), ("g# major", "4B"), ("amaj", "11B"), ("a major", "11B"),
   ("a#maj", "6B"), ("a# major", "6B"), ("bmaj", "1B"), ("b major", "1B"),
   ("cmin", "5A"), ("c minor", "5A"), ("c#min", "12A"), ("c# minor", "12A"),
   ("dmin", "7A"), ("d minor", "7A"), ("d#min", "2A"), ("d# minor", "2A"),
   ("emin", "9A"), ("e minor", "9A"), ("fmin", "4A"), ("f minor", "4A"),
   ("f#min", "11A"), ("f# minor", "11A"), ("gmin", "6A"), ("g minor", "6A"),
   ("g#min", "1A"), ("g# minor", "1A"), ("amin", "8A"), ("a minor", "8A"),
   ("a#min", "3A"), ("a# minor", "3A"), ("bmin", "10A"), ("b minor", "10A")]

/-- `needle` is a prefix of `hay` (character lists). -/
def isPrefixChars : List Char → List Char → Bool
  | [], _ => true
  | _ :: _, [] => false
  | a :: as, b :: bs => a = b && isPrefixChars as bs

/-- Python substring test `needle in hay`. -/
def containsSub (needle : List Char) : List Char → Bool
  | [] => isPrefixChars needle []
  | c :: rest => isPrefixChars needle (c :: rest) || containsSub needle rest

/-- Python `str.lower()` (per-character ASCII lowercase). -/
def lowerString (s : String) : String := ⟨s.data.map Char.toLower⟩

/-- First `musical_keys` entry whose name is a substring of
`filename.lower()`. -/
def lookupMusicalKey (filename : String) : Option String :=
  (musical_keys.find? (fun p => containsSub p.1.data (lowerString filename).data)).map (·.2)

/-- `MusicMixer.extract_key_from_filename`: try the three Camelot regex
patterns in order (each only accepted when the uppercased group is a wheel
key), then the descriptive-name table. -/
def extract_key_from_filename (filename : String) : Option String :=
  match tryCamelot (searchCamelot1 true filename.data) with
  | some k => some k
  | none =>
  match tryCamelot (searchWith camelot2At filename.data) with
  | some k => some k
  | none =>
  match tryCamelot (searchWith camelot3At filename.data) with
  | some k => some k
  | none => lookupMusicalKey filename

/-! ### BPM regex patterns (`extract_bpm_from_filename`) -/

/-- Literal `bpm` under `re.IGNORECASE` at the current position. -/
def isBpmLit : List Char → Bool
  | b :: p :: m :: _ => b.toLower = 'b' && p.toLower = 'p' && m.toLower = 'm'
  | _ => false

/-- Match `(\d{2,3})bpm` at the current position.  Greedy digit count; the
two-digit retry would need `bpm` to start at the third digit, which is
impossible, so a present third digit commits the three-digit branch. -/
def bpm1At : List Char → Option (List Char)
  | d1 :: d2 :: rest2 =>
    if d1.isDigit && d2.isDigit then
      match rest2 with
      | d3 :: rest3 =>
        if d3.isDigit then
          if isBpmLit rest3 then some [d1, d2, d3] else none
        else if isBpmLit rest2 then some [d1, d2]
        else none
      | [] => none
    else none
  | _ => none

/-- Match `\d{2,3}` greedily (no trailing context). -/
def digits23 : List Char → Option (List Char)
  | d1 :: d2 :: rest =>
    if d1.isDigit && d2.isDigit then
      match rest with
      | d3 :: _ => if d3.isDigit then some [d1, d2, d3] else some [d1, d2]
      | [] => some [d1, d2]
    else none
  | _ => none

/-- Match `bpm[\s_-]*(\d{2,3})` at the current position. -/
def bpm2At : List Char → Option (List Char)
  | b :: p :: m :: rest =>
    if b.toLower = 'b' && p.toLower = 'p' && m.toLower = 'm' then
      digits23 (skipSeps rest)
    else none
  | _ => none

/-- Single separator followed by literal `bpm`. -/
def sepThenBpm : List Char → Bool
  | s :: rest => isSepChar s && isBpmLit rest
  | [] => false

/-- Match `[\s_-](\d{2,3})[\s_-]bpm` at the current position (the two-digit
retry after a failed three-digit branch would need a separator at a digit,
which is impossible). -/
def bpm3At : List Char → Option (List Char)
  | s :: d1 :: d2 :: rest2 =>
    if isSepChar s && d1.isDigit && d2.isDigit then
      match rest2 with
      | d3 :: rest3 =>
        if d3.isDigit && sepThenBpm rest3 then some [d1, d2, d3]
        else if sepThenBpm rest2 then some [d1, d2]
        else none
      | [] => none
    else none
  | _ => none

/-- Match `^(\d{2,3})[\s_-]` (anchored at the start of the string). -/
def bpm4 : List Char → Option (List Char)
  | d1 :: d2 :: rest2 =>
    if d1.isDigit && d2.isDigit then
      match rest2 with
      | d3 :: rest3 =>
        if d3.isDigit then
          match rest3 with
          | s :: _ => if isSepChar s then some [d1, d2, d3] else none
          | [] => none
        else if isSepChar d3 then some [d1, d2]
        else none
      | [] => none
    else none
  | _ => none

/-- Match `[\s_-](\d{2,3})$` at the current position. -/
def bpm5At : List Char → Option (List Char)
  | s :: d1 :: d2 :: rest2 =>
    if isSepChar s && d1.isDigit && d2.isDigit then
      match rest2 with
      | [] => some [d1, d2]
      | [d3] => if d3.isDigit then some [d1, d2, d3] else none
      | _ => none
    else none
  | _ => none

/-- Match `\((\d{2,3})\)` at the current position. -/
def bpm6At : List Char → Option (List Char)
  | o :: d1 :: d2 :: rest2 =>
    if o = '(' && d1.isDigit && d2.isDigit then
      match rest2 with
      | c :: rest3 =>
        if c.isDigit then
          match rest3 with
          | c2 :: _ => if c2 = ')' then some [d1, d2, c] else none
          | [] => none
        else if c = ')' then some [d1, d2]
        else none
      | [] => none
    else none
  | _ => none

/-- Decimal value of a digit group (`int(match.group(1))`). -/
def digitsToNat (g : List Char) : ℕ :=
  g.foldl (fun acc c => acc * 10 + (c.toNat - '0'.toNat)) 0

/-- `bpm = int(match.group(1)); if 80 <= bpm <= 180: return bpm` — a match
whose value is out of range falls through to the next pattern. -/
def rangedBpm (res : Option (List Char)) : Option ℕ :=
  match res with
  | some g =>
    let n := digitsToNat g
    if 80 ≤ n ∧ n ≤ 180 then some n else none
  | none => none

/-- `MusicMixer.extract_bpm_from_filename`: the six patterns in source
order, each accepted only when its value lies in `[80, 180]`. -/
def extract_bpm_from_filename (filename : String) : Option ℕ :=
  let cs := filename.data
  match rangedBpm (searchWith bpm1At cs) with
  | some n => some n
  | none =>
  match rangedBpm (searchWith bpm2At cs) with
  | some n => some n
  | none =>
  match rangedBpm (searchWith bpm3At cs) with
  | some n => some n
  | none =>
  match rangedBpm (bpm4 cs) with
  | some n => some n
  | none =>
  match rangedBpm (searchWith bpm5At cs) with
  | some n => some n
  | none => rangedBpm (searchWith bpm6At cs)

/-! ### Paths (`os.path.basename` / `os.path.dirname`, POSIX) -/

/-- Characters after the last `/`. -/
def basenameChars (cs : List Char) : List Char :=
  cs.foldl (fun acc c => if c = '/' then [] else acc ++ [c]) []

/-- `os.path.basename`. -/
def basename (p : String) : String := (basenameChars p.data).asString

/-- Everything up to and including the last `/` (empty when there is no
slash): `p[:p.rfind('/') + 1]`. -/
def takeThroughLastSlash (cs : List Char) : List Char :=
  ((cs.reverse.dropWhile (fun c => c ≠ '/')).reverse)

/-- `os.path.dirname`: head up to the last slash, with trailing slashes
stripped unless the head consists only of slashes. -/
def dirname (p : String) : String :=
  let head := takeThroughLastSlash p.data
  if head.all (fun c => c = '/') then head.asString
  else ((head.reverse.dropWhile (fun c => c = '/')).reverse).asString

/-! ### Camelot compatibility (`get_compatible_keys`) -/

/-- `MusicMixer.get_compatible_keys`: the key itself, its relative (same
number, letter toggled) and its two numeric neighbours on the same letter
with wrap-around at the 1/12 boundary; `[key]` when the key is not a wheel
key. -/
def get_compatible_keys (key : String) : List String :=
  if key ∉ camelotKeys then [key]
  else
    let num := digitsToNat key.data.dropLast
    let letter := key.data.getLastD 'A'
    let relative := toString num ++ (if letter = 'A' then "B" else "A")
    let next_num := if num < 12 then num + 1 else 1
    let prev_num := if num > 1 then num - 1 else 12
    let letterStr := String.mk [letter]
    [key, relative, toString next_num ++ letterStr, toString prev_num ++ letterStr]

/-! ### Sample classification (`classify_samples` keyword chain) -/

/-- The eight instrument categories. -/
inductive Category
  | drums | bass | melody | harmony | fx | vocals | loops | other
deriving DecidableEq, Repr

/-- Keyword lists of the `classify_samples` if/elif chain, in source order. -/
def drumsKeywords : List String := ["kick", "drum", "bd", "sd", "snare", "hat"]

def bassKeywords : List String := ["bass", "sub", "808", "low", "bassline"]

def melodyKeywords : List String := ["melody", "lead", "synth", "pluck", "arp"]

def harmonyKeywords : List String := ["chord", "pad", "string", "harmony", "stabs"]

def fxKeywords : List String := ["fx", "effect", "impact", "sweep", "rise"]

def vocalsKeywords : List String := ["vocal", "voice", "chant", "sing", "vox"]

def loopsKeywords : List String := ["loop", "groove", "full", "mix"]

/-- `any(word in filename for word in kws)`. -/
def hasAnyKeyword (kws : List String) (filename : String) : Bool :=
  kws.any (fun w => containsSub w.data filename.data)

/-- The category assigned to a (lowercased) filename by the if/elif chain of
`classify_samples`: first matching category wins, no match means `other`. -/
def categoryOf (filename : String) : Category :=
  if hasAnyKeyword drumsKeywords filename then .drums
  else if hasAnyKeyword bassKeywords filename then .bass
  else if hasAnyKeyword melodyKeywords filename then .melody
  else if hasAnyKeyword harmonyKeywords filename then .harmony
  else if hasAnyKeyword fxKeywords filename then .fx
  else if hasAnyKeyword vocalsKeywords filename then .vocals
  else if hasAnyKeyword loopsKeywords filename then .loops
  else .other

/-! ### Tempo analysis grid (`get_bpm` fallback) -/

/-- The canonical BPM grid `common_bpms` of `get_bpm`. -/
def common_bpms : List ℕ :=
  [80, 85, 90, 95, 100, 105, 110, 115, 120,
   122, 124, 126, 128, 130, 132, 135, 138,
   140, 145, 150, 155, 160, 165, 170, 175, 180]

/-- Octave correction: double below 80, halve above 180. -/
def octaveCorrect (b : ℚ) : ℚ :=
  if b < 80 then b * 2 else if b > 180 then b / 2 else b

/-- `min(common_bpms, key=lambda x: abs(x - bpm))` — Python `min` keeps the
first element among ties, which the strict comparison preserves. -/
def snapToGrid (b : ℚ) : ℕ :=
  common_bpms.foldl (fun (best x : ℕ) => if |(x : ℚ) - b| < |(best : ℚ) - b| then x else best) 80

/-! ### Audio segments (pydub `AudioSegment`, abstracted to duration)

`pydub` is an external collaborator; the core only observes segment
durations (`len` in milliseconds), so a segment is modelled by its length.
`overlay` keeps the length of the base segment, `apply_gain` keeps the
length, `+` concatenates, slicing truncates. -/

structure AudioSeg where
  len : ℕ
deriving DecidableEq, Repr

/-- `AudioSegment.empty()`. -/
def AudioSeg.emptySeg : AudioSeg := ⟨0⟩

/-- `AudioSegment.silent(duration=d)`. -/
def AudioSeg.silent (d : ℕ) : AudioSeg := ⟨d⟩

/-- `a + b` (concatenation). -/
def AudioSeg.append (a b : AudioSeg) : AudioSeg := ⟨a.len + b.len⟩

/-- `a[:d]` for an integer bound `d`. -/
def AudioSeg.truncMs (a : AudioSeg) (d : ℕ) : AudioSeg := ⟨min a.len d⟩

/-- `a[:x]` for the float bound `ideal_length` of `optimize_audio_length`. -/
def AudioSeg.truncQ (a : AudioSeg) (x : ℚ) : AudioSeg := ⟨min a.len (Int.toNat ⌊x⌋)⟩

/-- `base.overlay(layer)`: pydub keeps the duration of the base segment. -/
def AudioSeg.overlay (base _layer : AudioSeg) : AudioSeg := base

/-- `audio.apply_gain(db)`: duration-preserving. -/
def AudioSeg.applyGain (a : AudioSeg) : AudioSeg := a

/-! ### Randomness

All draws come from one pseudorandom stream; a `RNG` is the stream (values
in `[0,1)`) together with a cursor.  `random.random()` consumes one draw;
`random.uniform(a,b)` is `a + (b-a)*random()`; `random.choice(seq)` and each
step of `random.sample(pop,k)` pick the index `⌊u·n⌋` of a fresh draw `u`
over the `n` remaining elements. -/

structure RNG where
  seq : ℕ → ℚ
  idx : ℕ

/-- One draw from the stream. -/
def RNG.next (r : RNG) : ℚ × RNG := (r.seq r.idx, ⟨r.seq, r.idx + 1⟩)

/-- Index `⌊u·n⌋` clamped into `[0, n)` (exact for draws in `[0,1)`). -/
def drawIndex (u : ℚ) (n : ℕ) : ℕ := min (Int.toNat ⌊u * n⌋) (n - 1)

/-- `l.eraseIdx i` spelled with take/drop, as used by sampling without
replacement. -/
def removeAt (l : List α) (i : ℕ) : List α := l.take i ++ l.drop (i + 1)

/-- `random.sample(pop, k)`: uniform sampling without replacement, one draw
per selected element. -/
def sampleWOR : List α → ℕ → RNG → List α × RNG
  | _, 0, r => ([], r)
  | [], _ + 1, r => ([], r)
  | x₀ :: pop, k + 1, r =>
    let (u, r1) := r.next
    let i := drawIndex u (x₀ :: pop).length
    let x := (x₀ :: pop).getD i x₀
    let (rest, r2) := sampleWOR (removeAt (x₀ :: pop) i) k r1
    (x :: rest, r2)

/-- `random.choice(seq)` (the callers only invoke it on non-empty lists). -/
def choiceDraw (l : List α) (d : α) (r : RNG) : α × RNG :=
  let (u, r1) := r.next
  (l.getD (drawIndex u l.length) d, r1)

/-- `random.uniform(lo, hi)`. -/
def uniformDraw (lo hi : ℚ) (r : RNG) : ℚ × RNG :=
  let (u, r1) := r.next
  (lo + (hi - lo) * u, r1)

/-! ### The engine: configuration, external capabilities, caches -/

/-- Constructor arguments of `MusicMixer` that the core logic reads. -/
structure MixerCfg where
  target_bpm : ℚ
  current_key : String
  experimental_mode : Bool

/-- External audio-processing capability (librosa / pydub / clock).
`primaryTempo` is `librosa.beat.beat_track` after `librosa.load`
(`none` = any exception, including a decode error); `secondaryTempo` is the
onset-strength fallback estimator; `decode` is `AudioSegment.from_file`
(`none` = exception); `retempo` is the frame-rate respawn inside
`change_tempo` (`none` = exception, swallowed there). -/
structure Env where
  primaryTempo : String → Option ℚ
  secondaryTempo : String → Option ℚ
  decode : String → Option AudioSeg
  retempo : AudioSeg → ℚ → ℚ → Option AudioSeg
  timestamp : String

/-- The per-instance metadata caches (`bpm_cache`, `key_cache`), modelled as
association lists where the most recent insertion shadows. -/
structure Caches where
  bpm_cache : List (String × ℚ)
  key_cache : List (String × Option String)

/-- Dictionary lookup. -/
def alookup (l : List (String × α)) (k : String) : Option α :=
  (l.find? (fun p => p.1 == k)).map (·.2)

/-! ### Metadata resolution (`get_bpm`, `get_sample_key`) -/

/-- `MusicMixer.get_bpm`: cache, filename pattern, parent-directory pattern,
audio analysis (primary then secondary estimator, octave correction, grid
snap), and on total failure the configured target tempo.  Returns the
resolved tempo and the updated cache state. -/
def get_bpm (cfg : MixerCfg) (env : Env) (st : Caches) (path : String) : ℚ × Caches :=
  match alookup st.bpm_cache path with
  | some b => (b, st)
  | none =>
    let filename := lowerString (basename path)
    match extract_bpm_from_filename filename with
    | some n => ((n : ℚ), { st with bpm_cache := (path, (n : ℚ)) :: st.bpm_cache })
    | none =>
      let parent := lowerString (basename (dirname path))
      match extract_bpm_from_filename parent with
      | some n => ((n : ℚ), { st with bpm_cache := (path, (n : ℚ)) :: st.bpm_cache })
      | none =>
        match env.primaryTempo path with
        | some raw =>
          let b : ℚ := (snapToGrid (octaveCorrect raw) : ℚ)
          (b, { st with bpm_cache := (path, b) :: st.bpm_cache })
        | none =>
          match env.secondaryTempo path with
          | some raw =>
            let b : ℚ := (snapToGrid (octaveCorrect raw) : ℚ)
            (b, { st with bpm_cache := (path, b) :: st.bpm_cache })
          | none =>
            (cfg.target_bpm, { st with bpm_cache := (path, cfg.target_bpm) :: st.bpm_cache })

/-- `MusicMixer.get_sample_key`: cache, filename, parent directory; an
unresolved key (`none`) is itself cached. -/
def get_sample_key (st : Caches) (path : String) : Option String × Caches :=
  match alookup st.key_cache path with
  | some k => (k, st)
  | none =>
    let k :=
      match extract_key_from_filename (lowerString (basename path)) with
      | some k => some k
      | none => extract_key_from_filename (lowerString (basename (dirname path)))
    (k, { st with key_cache := (path, k) :: st.key_cache })

/-! ### Classification (`classify_samples`) -/

/-- One classified sample: `(sample_path, bpm, key)`. -/
abbrev SampleInfo := String × ℚ × Option String

/-- `MusicMixer.classify_samples`: resolve bpm and key for each sample in
order (threading the caches) and append it to the bucket of the first
matching keyword category. -/
def classify_samples (cfg : MixerCfg) (env : Env) (st : Caches) :
    List String → (Category → List SampleInfo) × Caches
  | [] => (fun _ => [], st)
  | s :: rest =>
    let (bpm, st1) := get_bpm cfg env st s
    let (key, st2) := get_sample_key st1 s
    let c := categoryOf (lowerString (basename s))
    let (buckets, st3) := classify_samples cfg env st2 rest
    (fun c' => if c' = c then (s, bpm, key) :: buckets c' else buckets c', st3)

/-! ### Audio length normalization (`optimize_audio_length`, `change_tempo`) -/

/-- The repeat-append loop `looped = empty; while len(looped) < target:
looped += a`, with fuel; `none` models divergence (the fuel is consumed one
unit per iteration, so exhaustion on all fuels is non-termination). -/
def loopAppend (a : AudioSeg) (target : ℚ) : ℕ → AudioSeg → Option AudioSeg
  | fuel, acc =>
    if (acc.len : ℚ) < target then
      match fuel with
      | 0 => none
      | f + 1 => loopAppend a target f (acc.append a)
    else some acc

/-- `60000 / target_bpm * 4 * 4`: four bars of four beats. -/
def idealLength (target_bpm : ℚ) : ℚ := 60000 / target_bpm * 4 * 4

/-- `MusicMixer.optimize_audio_length`: loop-and-truncate up to the 4-bar
ideal length when shorter, pass through otherwise.  `some (.error _)` is the
`ZeroDivisionError` of `60000 / target_bpm` at tempo 0; `none` is
divergence of the repeat-append loop. -/
def optimize_audio_length (fuel : ℕ) (audio : AudioSeg) (target_bpm : ℚ) :
    Option (Except String AudioSeg) :=
  if target_bpm = 0 then some (.error "ZeroDivisionError")
  else
    let ideal := idealLength target_bpm
    if (audio.len : ℚ) < ideal then
      match loopAppend audio ideal fuel AudioSeg.emptySeg with
      | none => none
      | some looped => some (.ok (looped.truncQ ideal))
    else some (.ok audio)

/-- `MusicMixer.change_tempo`: identity on equal or non-positive source
tempo; otherwise the frame-rate respawn, whose own exceptions are swallowed
by returning the input segment. -/
def change_tempo (env : Env) (a : AudioSeg) (current_bpm target_bpm : ℚ) : AudioSeg :=
  if current_bpm = target_bpm ∨ current_bpm ≤ 0 then a
  else
    match env.retempo a current_bpm target_bpm with
    | some b => b
    | none => a

/-! ### Composition selection (`create_multilayer_composition`) -/

/-- The module-level `STANDARD_PROBABILITIES` table. -/
def STANDARD_PROBABILITIES : Category → ℚ
  | .drums => 0.9 | .bass => 0.8 | .melody => 0.7 | .harmony => 0.6
  | .vocals => 0.4 | .fx => 0.3 | .loops => 0.5 | .other => 0.2

/-- The module-level `EXPERIMENTAL_PROBABILITIES` table. -/
def EXPERIMENTAL_PROBABILITIES : Category → ℚ
  | .drums => 0.6 | .bass => 0.5 | .melody => 0.8 | .harmony => 0.7
  | .vocals => 0.6 | .fx => 0.8 | .loops => 0.4 | .other => 0.9

/-- The `volume_ranges` table of `create_multilayer_composition`
(one closed `[min, max]` volume sub-range per category). -/
def volume_ranges : Category → ℚ × ℚ
  | .drums => (0.4, 0.9) | .bass => (0.3, 0.8) | .melody => (0.2, 0.7)
  | .harmony => (0.2, 0.6) | .fx => (0.1, 0.8) | .vocals => (0.3, 0.8)
  | .loops => (0.2, 0.7) | .other => (0.1, 0.9)

/-- The `priority_order` list of `create_multilayer_composition`. -/
def priority_order : List Category :=
  [.drums, .bass, .melody, .harmony, .vocals, .fx, .loops, .other]

/-- The populated categories, in priority order
(`[cat for cat in priority_order if cat in categories and categories[cat]]`). -/
def populatedCategories (cats : Category → List SampleInfo) : List Category :=
  priority_order.filter (fun c => cats c ≠ [])

/-- Stochastic inclusion: one `random.random()` draw per populated category,
in priority order, kept when the draw is below the mode's table value
(callers pass `priority_order` as the category list). -/
def inclusionStep (probs : Category → ℚ) (cats : Category → List SampleInfo) :
    List Category → RNG → List Category × RNG
  | [], r => ([], r)
  | c :: rest, r =>
    if cats c ≠ [] then
      let (u, r1) := r.next
      let (tail, r2) := inclusionStep probs cats rest r1
      (if u < probs c then c :: tail else tail, r2)
    else inclusionStep probs cats rest r

/-- One selected layer. -/
structure Layer where
  category : Category
  sample : String
  audio : AudioSeg
  original_bpm : ℚ
  key : Option String
  volume : ℚ
deriving DecidableEq, Repr

/-- One entry of `composition_info['layers']`. -/
structure LayerInfo where
  category : Category
  sample : String
  original_bpm : ℚ
  key : Option String
  volume : ℚ
deriving DecidableEq, Repr

/-- `composition_info`. -/
structure CompositionInfo where
  layers : List LayerInfo
  bpm : ℚ
  key : String
  mode : String
  timestamp : String
deriving DecidableEq, Repr

/-- The key-compatibility filter of the selection loop:  percussive
categories (`drums`, `fx`, `other`) accept every sample; otherwise a sample
is compatible when its key is absent or among the target's compatible keys. -/
def compatibleSubset (c : Category) (compatKeys : List String)
    (l : List SampleInfo) : List SampleInfo :=
  if c = .drums ∨ c = .fx ∨ c = .other then l
  else l.filter (fun t => match t.2.2 with
    | none => true
    | some k => k ∈ compatKeys)

/-- `samples_to_use = compatible_samples if compatible_samples else
all_samples`. -/
def samplesToUse (c : Category) (compatKeys : List String)
    (l : List SampleInfo) : List SampleInfo :=
  if compatibleSubset c compatKeys l = [] then l else compatibleSubset c compatKeys l

/-- The per-category body of the selection loop: choose a sample from the
compatible subset (falling back to the whole bucket when it is empty),
decode it, normalize its length, adjust its tempo, draw a volume, and
append the layer — skipping the category on a decode failure or a
`ZeroDivisionError` (the per-layer `try/except`), and propagating
divergence (`none`) of the length-normalization loop. -/
def selectLoop (cfg : MixerCfg) (env : Env) (fuel : ℕ) (compatKeys : List String)
    (cats : Category → List SampleInfo) :
    List Category → List Layer × List LayerInfo × RNG →
    Option (List Layer × List LayerInfo × RNG)
  | [], acc => some acc
  | c :: rest, (layers, infos, r) =>
    if cats c = [] then selectLoop cfg env fuel compatKeys cats rest (layers, infos, r)
    else
      match samplesToUse c compatKeys (cats c) with
      | [] => selectLoop cfg env fuel compatKeys cats rest (layers, infos, r)
      | t₀ :: ts =>
        let (chosen, r1) := choiceDraw (t₀ :: ts) t₀ r
        let sample_path := chosen.1
        let original_bpm := chosen.2.1
        let sample_key := chosen.2.2
        match env.decode sample_path with
        | none => selectLoop cfg env fuel compatKeys cats rest (layers, infos, r1)
        | some audio0 =>
          match optimize_audio_length fuel audio0 cfg.target_bpm with
          | none => none
          | some (.error _) => selectLoop cfg env fuel compatKeys cats rest (layers, infos, r1)
          | some (.ok audio1) =>
            let audio2 :=
              if original_bpm > 0 ∧ |original_bpm - cfg.target_bpm| > 1 then
                change_tempo env audio1 original_bpm cfg.target_bpm
              else audio1
            let vol_range := volume_ranges c
            let (volume, r2) := uniformDraw vol_range.1 vol_range.2 r1
            selectLoop cfg env fuel compatKeys cats rest
              (layers ++ [⟨c, sample_path, audio2, original_bpm, sample_key, volume⟩],
               infos ++ [⟨c, basename sample_path, original_bpm, sample_key, volume⟩],
               r2)

/-- Result of one `create_multilayer_composition` call, together with the
final cache and random-stream state. -/
structure CreateResult where
  layers : List Layer
  info : CompositionInfo
  caches : Caches
  rng : RNG

/-- `MusicMixer.create_multilayer_composition` over an already-scanned
sample list (the recursive directory walk is the external scan).
`some (.error _)` is the `ValueError` on an empty library; `none` is
divergence of the per-layer length-normalization loop. -/
def create_multilayer_composition (cfg : MixerCfg) (env : Env) (fuel : ℕ)
    (st : Caches) (rng : RNG) (samples : List String) (num_layers : ℕ) :
    Option (Except String CreateResult) :=
  if samples = [] then some (.error "No audio files found")
  else
    let (cats, st1) := classify_samples cfg env st samples
    let info0 : CompositionInfo :=
      ⟨[], cfg.target_bpm, cfg.current_key,
        if cfg.experimental_mode then "experimental" else "standard",
        env.timestamp⟩
    let probs :=
      if cfg.experimental_mode then EXPERIMENTAL_PROBABILITIES
      else STANDARD_PROBABILITIES
    let (avail0, rng1) := inclusionStep probs cats priority_order rng
    let available_categories :=
      if avail0 = [] then populatedCategories cats else avail0
    if available_categories = [] then some (.ok ⟨[], info0, st1, rng1⟩)
    else
      let actual_layers := min num_layers available_categories.length
      let (selected, rng2) := sampleWOR available_categories actual_layers rng1
      let compatKeys := get_compatible_keys cfg.current_key
      match selectLoop cfg env fuel compatKeys cats selected ([], [], rng2) with
      | none => none
      | some (layers, infos, rng3) =>
        some (.ok ⟨layers, { info0 with layers := infos }, st1, rng3⟩)

/-! ### Mix assembly (`generate_mix_audio`) and the full pipeline -/

/-- The per-layer body of `generate_mix_audio`: apply the gain, loop the
layer to the requested duration, truncate, overlay onto the mix. -/
def mixLayers (fuel duration_ms : ℕ) : List Layer → AudioSeg → Option AudioSeg
  | [], mix => some mix
  | l :: rest, mix =>
    let audio_with_gain := l.audio.applyGain
    match loopAppend audio_with_gain (duration_ms : ℚ) fuel AudioSeg.emptySeg with
    | none => none
    | some looped =>
      mixLayers fuel duration_ms rest (mix.overlay (looped.truncMs duration_ms))

/-- `MusicMixer.generate_mix_audio`: reject an empty layer list, then fold
the layers over a silent canvas of the requested duration (the export to a
temporary file is external).  `none` is divergence of a repeat-append
loop. -/
def generate_mix_audio (fuel : ℕ) (layers : List Layer) (duration_ms : ℕ := 30000) :
    Option (Except String AudioSeg) :=
  if layers = [] then some (.error "No layers to mix")
  else
    match mixLayers fuel duration_ms layers (AudioSeg.silent duration_ms) with
    | none => none
    | some mix => some (.ok mix)

/-- `MusicMixer.generate_complete_mix`: create the composition, reject an
empty layer list, render the mix (the description formatting and export are
external to the verified core). -/
def generate_complete_mix (cfg : MixerCfg) (env : Env) (fuel : ℕ)
    (st : Caches) (rng : RNG) (samples : List String) (num_layers : ℕ) :
    Option (Except String (AudioSeg × CompositionInfo × Caches × RNG)) :=
  match create_multilayer_composition cfg env fuel st rng samples num_layers with
  | none => none
  | some (.error e) => some (.error e)
  | some (.ok res) =>
    if res.layers = [] then some (.error "Could not create composition")
    else
      match generate_mix_audio fuel res.layers 30000 with
      | none => none
      | some (.error e) => some (.error e)
      | some (.ok mix) => some (.ok (mix, res.info, res.caches, res.rng))

/-! ## Spec-side notions used for refinement statements -/

/-- Spec §3: the number of a Camelot code. -/
def keyNumber (key : String) : ℕ := digitsToNat key.data.dropLast

/-- Spec §3: the letter of a Camelot code. -/
def keyLetter (key : String) : Char := key.data.getLastD 'A'

/-- Spec §3/§4.1: the relative key — same number, opposite letter. -/
def relativeOf (key : String) : String :=
  toString (keyNumber key) ++ (if keyLetter key = 'A' then "B" else "A")

/-- Spec §3/§4.1: the `+1` numeric neighbour on the same letter, wrapping
12 to 1. -/
def nextNeighborOf (key : String) : String :=
  toString (if keyNumber key = 12 then 1 else keyNumber key + 1) ++ String.mk [keyLetter key]

/-- Spec §3/§4.1: the `-1` numeric neighbour on the same letter, wrapping
1 to 12. -/
def prevNeighborOf (key : String) : String :=
  toString (if keyNumber key = 1 then 12 else keyNumber key - 1) ++ String.mk [keyLetter key]

/-! ## C3: Camelot compatibility -/

/-- **C3.** For every recognized Camelot key, `get_compatible_keys` returns
the set of at most 4 keys consisting of the key itself, its relative (same
number, letter toggled) and its two numeric neighbours on the same letter
with wrap-around at the 1/12 boundary; in particular
`get_compatible_keys "8A"` is the set `{8A, 8B, 7A, 9A}` and
`get_compatible_keys "1A"` contains `"12A"`; an absent or unrecognized key
yields `{key}`. -/
theorem get_compatible_keys_spec :
    (∀ key : String, key ∉ camelotKeys → get_compatible_keys key = [key]) ∧
    (∀ key ∈ camelotKeys,
      (get_compatible_keys key).toFinset =
        {key, relativeOf key, nextNeighborOf key, prevNeighborOf key} ∧
      (get_compatible_keys key).toFinset.card ≤ 4) ∧
    (get_compatible_keys "8A").toFinset = ({"8A", "8B", "7A", "9A"} : Finset String) ∧
    "12A" ∈ get_compatible_keys "1A" := by
  refine ⟨?_, by decide, by decide, by decide⟩
  intro key h
  simp only [get_compatible_keys]
  rw [if_pos h]

/-- Witness for C3: the theorem applied to the unrecognized key `"Q7"` and
to the wheel key `"8A"`. -/
theorem get_compatible_keys_spec_witness :
    ("Q7" ∉ camelotKeys ∧ get_compatible_keys "Q7" = ["Q7"]) ∧
    ("8A" ∈ camelotKeys ∧
      (get_compatible_keys "8A").toFinset =
        {"8A", relativeOf "8A", nextNeighborOf "8A", prevNeighborOf "8A"}) :=
  ⟨⟨by decide, get_compatible_keys_spec.1 "Q7" (by decide)⟩,
   ⟨by decide, (get_compatible_keys_spec.2.1 "8A" (by decide)).1⟩⟩

/-! ## C7: key extraction from filenames -/

/-- **C7 counterexample.** The claim states that
`extract_key_from_filename "lead_8a.wav"` returns `"8A"`; in the code the
Camelot pattern requires a word boundary `\b` before the digits, and `_` is
a word character, so no pattern matches and the result is `none`. -/
theorem extract_key_underscore_cex :
    extract_key_from_filename "lead_8a.wav" = none := by decide

/-- **C7 (amended).** Key extraction first tries the explicit
Camelot-notation patterns and then the descriptive-name table
(case-insensitive substring, first entry wins); `"lead_8a.wav"` yields
`none` because `_` is a word character, so the word-boundary pattern cannot
match after an underscore, while a non-word separator (as in
`"lead 8a.wav"` or `"lead-8a.wav"`) yields `"8A"`; `"bass_cmin.wav"`
(lowercased) yields `"5A"`; a filename matching neither family yields
absent. -/
theorem extract_key_from_filename_spec :
    extract_key_from_filename "lead_8a.wav" = none ∧
    extract_key_from_filename "lead 8a.wav" = some "8A" ∧
    extract_key_from_filename "lead-8a.wav" = some "8A" ∧
    extract_key_from_filename "bass_cmin.wav" = some "5A" ∧
    (∀ f : String,
      tryCamelot (searchCamelot1 true f.data) = none →
      tryCamelot (searchWith camelot2At f.data) = none →
      tryCamelot (searchWith camelot3At f.data) = none →
      extract_key_from_filename f = lookupMusicalKey f) ∧
    extract_key_from_filename "track.wav" = none := by
  refine ⟨by decide, by decide, by decide, by decide, ?_, by decide⟩
  intro f h1 h2 h3
  simp only [extract_key_from_filename, h1, h2, h3]

/-- Witness for C7 (amended): the Camelot patterns all fail on
`"pad x.wav"`, so extraction falls through to the descriptive-name table. -/
theorem extract_key_from_filename_spec_witness :
    tryCamelot (searchCamelot1 true "pad x.wav".data) = none ∧
    extract_key_from_filename "pad x.wav" = lookupMusicalKey "pad x.wav" :=
  ⟨by decide,
   extract_key_from_filename_spec.2.2.2.2.1 "pad x.wav" (by decide) (by decide) (by decide)⟩

/-! ## C6: classification partitions the sample list -/

/-- The sample paths in bucket `c` of `classify_samples` are exactly the
input samples whose lowercased basename classifies to `c`, in input order. -/
lemma classify_samples_paths (cfg : MixerCfg) (env : Env) :
    ∀ (samples : List String) (st : Caches) (c : Category),
      (((classify_samples cfg env st samples).1 c).map (·.1)) =
        samples.filter (fun s => decide (categoryOf (lowerString (basename s)) = c)) := by
  intro samples
  induction samples with
  | nil => intro st c; simp [classify_samples]
  | cons s rest ih =>
    intro st c
    rcases hb : get_bpm cfg env st s with ⟨b, st1⟩
    rcases hk : get_sample_key st1 s with ⟨k, st2⟩
    by_cases hc : c = categoryOf (lowerString (basename s))
    · simp [classify_samples, hb, hk, if_pos hc, List.filter_cons, hc.symm, ih]
    · have hc2 : ¬ categoryOf (lowerString (basename s)) = c := fun h => hc h.symm
      simp [classify_samples, hb, hk, if_neg hc, List.filter_cons, hc2, ih]

/-- Summing the per-category filters over the eight categories recovers the
whole sample list. -/
lemma filter_category_length_sum :
    ∀ samples : List String,
      (priority_order.map (fun c =>
        (samples.filter
          (fun s => decide (categoryOf (lowerString (basename s)) = c))).length)).sum
        = samples.length := by
  intro samples
  induction samples with
  | nil => simp
  | cons s rest ih =>
    simp only [priority_order, List.map_cons, List.map_nil, List.sum_cons,
      List.sum_nil, List.filter_cons] at ih ⊢
    cases hcs : categoryOf (lowerString (basename s)) <;> simp [hcs] <;> omega

/-- **C6.** `classify_samples` assigns every sample to exactly one of the 8
categories: bucket `c` holds exactly the samples whose lowercased basename
classifies to `c` (first matching keyword category in the fixed priority
order, `other` on no match), the bucket sizes sum to the input size (no
sample dropped or double-counted), and `"kick_808_128bpm.wav"` classifies
as `drums` although it also contains the bass keyword `"808"`. -/
theorem classify_samples_partition :
    (∀ (cfg : MixerCfg) (env : Env) (st : Caches) (samples : List String),
      (∀ c : Category,
        (((classify_samples cfg env st samples).1 c).map (·.1)) =
          samples.filter (fun s => decide (categoryOf (lowerString (basename s)) = c))) ∧
      (priority_order.map (fun c => ((classify_samples cfg env st samples).1 c).length)).sum
        = samples.length) ∧
    categoryOf "kick_808_128bpm.wav" = Category.drums ∧
    hasAnyKeyword bassKeywords "kick_808_128bpm.wav" = true := by
  refine ⟨fun cfg env st samples => ⟨classify_samples_paths cfg env samples st, ?_⟩,
          by decide, by decide⟩
  have hlen : ∀ c : Category,
      ((classify_samples cfg env st samples).1 c).length =
        (samples.filter
          (fun s => decide (categoryOf (lowerString (basename s)) = c))).length := by
    intro c
    rw [← classify_samples_paths cfg env samples st c, List.length_map]
  calc (priority_order.map (fun c => ((classify_samples cfg env st samples).1 c).length)).sum
      = (priority_order.map (fun c =>
          (samples.filter
            (fun s => decide (categoryOf (lowerString (basename s)) = c))).length)).sum := by
        exact congrArg List.sum (List.map_congr_left (fun c _ => hlen c))
    _ = samples.length := filter_category_length_sum samples

/-! ## C1: resolved tempos and the `[80, 180]` interval -/

/-- A range-checked pattern result is in `[80, 180]`. -/
lemma rangedBpm_range {r : Option (List Char)} {n : ℕ} (h : rangedBpm r = some n) :
    80 ≤ n ∧ n ≤ 180 := by
  cases r with
  | none => simp [rangedBpm] at h
  | some g =>
    simp only [rangedBpm] at h
    split_ifs at h with hin
    cases h; exact hin

/-- Every successful filename BPM extraction is in `[80, 180]`. -/
lemma extract_bpm_range {f : String} {n : ℕ}
    (h : extract_bpm_from_filename f = some n) : 80 ≤ n ∧ n ≤ 180 := by
  simp only [extract_bpm_from_filename] at h
  repeat' split at h
  all_goals
    first
      | exact rangedBpm_range h
      | (cases h; exact rangedBpm_range (by assumption))

/-- The fold of `snapToGrid` only ever returns its initial value or a grid
element. -/
lemma foldl_closest_mem :
    ∀ (l : List ℕ) (b : ℚ) (init : ℕ),
      l.foldl (fun (best x : ℕ) => if |(x : ℚ) - b| < |(best : ℚ) - b| then x else best) init
        ∈ init :: l := by
  intro l
  induction l with
  | nil => simp
  | cons x xs ih =>
    intro b init
    simp only [List.foldl_cons]
    by_cases hx : |(x : ℚ) - b| < |(init : ℚ) - b|
    · rw [if_pos hx]
      rcases List.mem_cons.mp (ih b x) with h | h
      · rw [h]; simp
      · simp [List.mem_cons, h]
    · rw [if_neg hx]
      rcases List.mem_cons.mp (ih b init) with h | h
      · simp [h]
      · simp [List.mem_cons, h]

/-- The snapped tempo lies in `[80, 180]`. -/
lemma snapToGrid_range (b : ℚ) : 80 ≤ snapToGrid b ∧ snapToGrid b ≤ 180 := by
  have hmem := foldl_closest_mem common_bpms b 80
  have hall : ∀ x ∈ (80 :: common_bpms : List ℕ), 80 ≤ x ∧ x ≤ 180 := by decide
  exact hall _ hmem

/-- Lookup after a dictionary insertion. -/
lemma alookup_cons (k : String) (v : α) (l : List (String × α)) (q : String) :
    alookup ((k, v) :: l) q = if k == q then some v else alookup l q := by
  simp only [alookup, List.find?_cons]
  cases h : (k == q) <;> simp [h]

/-- Inserting an in-range tempo preserves the cache range invariant. -/
lemma bpmCacheBound_cons {l : List (String × ℚ)} {k : String} {v : ℚ}
    (hl : ∀ p b, alookup l p = some b → 80 ≤ b ∧ b ≤ 180)
    (hv : 80 ≤ v ∧ v ≤ 180) :
    ∀ p b, alookup ((k, v) :: l) p = some b → 80 ≤ b ∧ b ≤ 180 := by
  intro p b h
  rw [alookup_cons] at h
  split_ifs at h with hkq
  · cases h; exact hv
  · exact hl p b h

/-- **C1 counterexample.**  The claim asserts the resolved tempo always
lies in `[80, 180]`; but the total-failure branch of `get_bpm` returns the
configured target tempo unvalidated, so a mixer configured with
`target_bpm = 200` resolves a pattern-free, analysis-failing sample to
200. -/
theorem get_bpm_range_cex :
    ¬ (80 ≤ (get_bpm ⟨200, "8A", false⟩
          ⟨fun _ => none, fun _ => none, fun _ => none, fun _ _ _ => none, ""⟩
          ⟨[], []⟩ "track.wav").1 ∧
        (get_bpm ⟨200, "8A", false⟩
          ⟨fun _ => none, fun _ => none, fun _ => none, fun _ _ _ => none, ""⟩
          ⟨[], []⟩ "track.wav").1 ≤ 180) := by decide

/-- **C1 (amended).**  Provided the configured target tempo lies in
`[80, 180]` (as the default 128 does) and every cached tempo does, the
tempo returned by `get_bpm` — through the full fallback chain: filename
pattern, parent-directory pattern, audio analysis with octave correction
and grid snapping, and the total-failure default to the configured target
tempo — lies in the closed interval `[80, 180]`, and the updated cache
again satisfies the invariant. -/
theorem get_bpm_range (cfg : MixerCfg) (env : Env) (st : Caches) (path : String)
    (hcache : ∀ p b, alookup st.bpm_cache p = some b → 80 ≤ b ∧ b ≤ 180)
    (ht80 : 80 ≤ cfg.target_bpm) (ht180 : cfg.target_bpm ≤ 180) :
    (80 ≤ (get_bpm cfg env st path).1 ∧ (get_bpm cfg env st path).1 ≤ 180) ∧
    (∀ p b, alookup (get_bpm cfg env st path).2.bpm_cache p = some b →
      80 ≤ b ∧ b ≤ 180) := by
  rcases hlk : alookup st.bpm_cache path with _ | b
  · rcases hf : extract_bpm_from_filename (lowerString (basename path)) with _ | n
    · rcases hp : extract_bpm_from_filename (lowerString (basename (dirname path))) with _ | n
      · rcases h1 : env.primaryTempo path with _ | raw
        · rcases h2 : env.secondaryTempo path with _ | raw
          · simp only [get_bpm, hlk, hf, hp, h1, h2]
            exact ⟨⟨ht80, ht180⟩, bpmCacheBound_cons hcache ⟨ht80, ht180⟩⟩
          · simp only [get_bpm, hlk, hf, hp, h1, h2]
            have hs := snapToGrid_range (octaveCorrect raw)
            have hq : (80 : ℚ) ≤ (snapToGrid (octaveCorrect raw) : ℚ) ∧
                (snapToGrid (octaveCorrect raw) : ℚ) ≤ 180 := by
              exact_mod_cast hs
            exact ⟨hq, bpmCacheBound_cons hcache hq⟩
        · simp only [get_bpm, hlk, hf, hp, h1]
          have hs := snapToGrid_range (octaveCorrect raw)
          have hq : (80 : ℚ) ≤ (snapToGrid (octaveCorrect raw) : ℚ) ∧
              (snapToGrid (octaveCorrect raw) : ℚ) ≤ 180 := by
            exact_mod_cast hs
          exact ⟨hq, bpmCacheBound_cons hcache hq⟩
      · simp only [get_bpm, hlk, hf, hp]
        have hq : (80 : ℚ) ≤ (n : ℚ) ∧ (n : ℚ) ≤ 180 := by
          exact_mod_cast extract_bpm_range hp
        exact ⟨hq, bpmCacheBound_cons hcache hq⟩
    · simp only [get_bpm, hlk, hf]
      have hq : (80 : ℚ) ≤ (n : ℚ) ∧ (n : ℚ) ≤ 180 := by
        exact_mod_cast extract_bpm_range hf
      exact ⟨hq, bpmCacheBound_cons hcache hq⟩
  · simp only [get_bpm, hlk]
    exact ⟨hcache path b hlk, hcache⟩

/-- Witness for C1 (amended): a freshly constructed mixer with the default
target tempo 128 resolves `"track.wav"` to a tempo in `[80, 180]`. -/
theorem get_bpm_range_witness :
    (80 ≤ (get_bpm ⟨128, "8A", false⟩
        ⟨fun _ => none, fun _ => none, fun _ => none, fun _ _ _ => none, ""⟩
        ⟨[], []⟩ "track.wav").1 ∧
      (get_bpm ⟨128, "8A", false⟩
        ⟨fun _ => none, fun _ => none, fun _ => none, fun _ _ _ => none, ""⟩
        ⟨[], []⟩ "track.wav").1 ≤ 180) ∧
    (∀ p b, alookup (get_bpm ⟨128, "8A", false⟩
        ⟨fun _ => none, fun _ => none, fun _ => none, fun _ _ _ => none, ""⟩
        ⟨[], []⟩ "track.wav").2.bpm_cache p = some b → 80 ≤ b ∧ b ≤ 180) :=
  get_bpm_range ⟨128, "8A", false⟩
    ⟨fun _ => none, fun _ => none, fun _ => none, fun _ _ _ => none, ""⟩
    ⟨[], []⟩ "track.wav" (by intro p b h; simp [alookup] at h)
    (by norm_num) (by norm_num)

/-! ## C2 and C10: the repeat-append loops and mix duration -/

/-- The repeat-append loop returns within `fuel` iterations whenever the
accumulated length can reach the target: each iteration adds `a.len`. -/
lemma loopAppend_isSome_of_le (a : AudioSeg) (target : ℚ) :
    ∀ (fuel : ℕ) (acc : AudioSeg), 0 < a.len →
      target ≤ (acc.len : ℚ) + fuel * a.len → (loopAppend a target fuel acc).isSome := by
  intro fuel
  induction fuel with
  | zero =>
    intro acc _ hle
    rw [loopAppend]
    rw [if_neg (by push_cast at hle ⊢; linarith)]
    rfl
  | succ f ih =>
    intro acc ha hle
    rw [loopAppend]
    split_ifs with hguard
    · apply ih (acc.append a) ha
      have hexp : ((acc.append a).len : ℚ) = (acc.len : ℚ) + a.len := by
        simp [AudioSeg.append]
      rw [hexp]
      push_cast at hle
      have expand : ((f : ℚ) + 1) * (a.len : ℚ) = (f : ℚ) * a.len + a.len := by ring
      rw [expand] at hle
      linarith
    · rfl

/-- With a zero-length segment and a positive target the loop guard never
becomes false: the loop runs out of any amount of fuel (non-termination). -/
lemma loopAppend_zero_none (a : AudioSeg) (target : ℚ)
    (ha : a.len = 0) (htarget : 0 < target) :
    ∀ (fuel : ℕ) (acc : AudioSeg), acc.len = 0 →
      loopAppend a target fuel acc = none := by
  intro fuel
  induction fuel with
  | zero =>
    intro acc hacc
    rw [loopAppend, if_pos (by rw [hacc]; exact_mod_cast htarget)]
  | succ f ih =>
    intro acc hacc
    rw [loopAppend, if_pos (by rw [hacc]; exact_mod_cast htarget)]
    exact ih (acc.append a) (by simp [AudioSeg.append, hacc, ha])

/-- Overlaying looped layers never changes the canvas length. -/
lemma mixLayers_len_of_some :
    ∀ (layers : List Layer) (fuel d : ℕ) (mix m : AudioSeg),
      mixLayers fuel d layers mix = some m → m.len = mix.len := by
  intro layers
  induction layers with
  | nil => intro fuel d mix m h; rw [mixLayers] at h; cases h; rfl
  | cons l rest ih =>
    intro fuel d mix m h
    rw [mixLayers] at h
    rcases hl : loopAppend l.audio.applyGain (d : ℚ) fuel AudioSeg.emptySeg with _ | looped
    · rw [hl] at h; cases h
    · rw [hl] at h
      exact ih fuel d _ m h

/-- With every layer of positive length, fuel `d` suffices for every
per-layer loop. -/
lemma mixLayers_isSome (d : ℕ) :
    ∀ (layers : List Layer) (mix : AudioSeg), (∀ l ∈ layers, 0 < l.audio.len) →
      (mixLayers d d layers mix).isSome := by
  intro layers
  induction layers with
  | nil => intro mix _; rw [mixLayers]; rfl
  | cons l rest ih =>
    intro mix hpos
    rw [mixLayers]
    have hl : (loopAppend l.audio.applyGain (d : ℚ) d AudioSeg.emptySeg).isSome := by
      apply loopAppend_isSome_of_le _ _ _ _ (hpos l (by simp))
      have h1 : (1 : ℚ) ≤ (l.audio.applyGain.len : ℚ) := by
        have := hpos l (List.mem_cons_self l rest)
        simp only [AudioSeg.applyGain]
        exact_mod_cast this
      have : (d : ℚ) * 1 ≤ (d : ℚ) * (l.audio.applyGain.len : ℚ) :=
        mul_le_mul_of_nonneg_left h1 (by positivity)
      simpa [AudioSeg.emptySeg] using this
    rcases hsome : loopAppend l.audio.applyGain (d : ℚ) d AudioSeg.emptySeg with _ | looped
    · rw [hsome] at hl; cases hl
    · exact ih _ (fun x hx => hpos x (List.mem_cons_of_mem l hx))

/-- A zero-length layer makes the per-layer loop diverge for any fuel. -/
lemma mixLayers_none_of_zero :
    ∀ (layers : List Layer) (fuel d : ℕ) (mix : AudioSeg), 0 < d →
      (∃ l ∈ layers, l.audio.len = 0) → mixLayers fuel d layers mix = none := by
  intro layers
  induction layers with
  | nil => intro fuel d mix _ h; rcases h with ⟨_, h, _⟩; cases h
  | cons l rest ih =>
    intro fuel d mix hd h
    rw [mixLayers]
    rcases h with ⟨x, hx, hx0⟩
    rcases List.mem_cons.mp hx with rfl | hxrest
    · rw [loopAppend_zero_none x.audio.applyGain (d : ℚ)
        (by simpa [AudioSeg.applyGain] using hx0)
        (by exact_mod_cast hd) fuel AudioSeg.emptySeg rfl]
    · rcases hl : loopAppend l.audio.applyGain (d : ℚ) fuel AudioSeg.emptySeg with _ | looped
      · rfl
      · exact ih fuel d _ hd ⟨x, hxrest, hx0⟩

/-- **C2.** `generate_mix_audio` raises `ValueError("No layers to mix")` on
an empty layer list, and whenever it returns a rendered mix for a non-empty
layer list, the mix's duration equals the requested duration exactly (each
layer is repeat-appended to at least the duration, truncated to it, and
overlaid onto a silent canvas of that duration, which fixes the canvas
length). -/
theorem generate_mix_audio_duration :
    (∀ (fuel d : ℕ), generate_mix_audio fuel [] d = some (.error "No layers to mix")) ∧
    (∀ (fuel : ℕ) (layers : List Layer) (d : ℕ) (mix : AudioSeg),
      layers ≠ [] → generate_mix_audio fuel layers d = some (.ok mix) →
      mix.len = d) := by
  constructor
  · intro fuel d; simp [generate_mix_audio]
  · intro fuel layers d mix hne h
    rw [generate_mix_audio, if_neg hne] at h
    rcases hm : mixLayers fuel d layers (AudioSeg.silent d) with _ | m
    · rw [hm] at h; cases h
    · rw [hm] at h
      cases h
      exact mixLayers_len_of_some layers fuel d _ _ hm

/-- Witness for C2: a single 2 ms layer rendered at a 5 ms requested
duration yields exactly 5 ms. -/
theorem generate_mix_audio_duration_witness :
    ([(⟨Category.drums, "kick.wav", ⟨2⟩, 128, none, 1/2⟩ : Layer)] ≠ []) ∧
    (⟨5⟩ : AudioSeg).len = 5 :=
  ⟨by simp,
   generate_mix_audio_duration.2 10 [⟨Category.drums, "kick.wav", ⟨2⟩, 128, none, 1/2⟩]
     5 ⟨5⟩ (by simp) rfl⟩

/-- **C10.** The repeat-append loops of `optimize_audio_length` and
`generate_mix_audio` terminate for every audio segment of strictly positive
length (each iteration strictly increases the accumulated length until it
reaches the target), and positive length is necessary: on a zero-length
segment the loop guard never becomes false — whenever the loop is entered
at all (a positive ideal length, resp. a positive requested duration), the
functions diverge for every fuel. -/
theorem repeat_append_loops_terminate :
    (∀ (a : AudioSeg) (bpm : ℚ), 0 < a.len →
      ∃ fuel, (optimize_audio_length fuel a bpm).isSome) ∧
    (∀ (layers : List Layer) (d : ℕ), (∀ l ∈ layers, 0 < l.audio.len) →
      ∃ fuel, (generate_mix_audio fuel layers d).isSome) ∧
    (∀ (a : AudioSeg) (bpm : ℚ) (fuel : ℕ), a.len = 0 → 0 < idealLength bpm →
      optimize_audio_length fuel a bpm = none) ∧
    (∀ (l : Layer) (rest : List Layer) (d fuel : ℕ), l.audio.len = 0 → 0 < d →
      generate_mix_audio fuel (l :: rest) d = none) := by
  refine ⟨?_, ?_, ?_, ?_⟩
  · intro a bpm ha
    by_cases hb : bpm = 0
    · exact ⟨0, by rw [optimize_audio_length, if_pos hb]; rfl⟩
    · by_cases hshort : (a.len : ℚ) < idealLength bpm
      · refine ⟨⌈idealLength bpm⌉₊, ?_⟩
        rw [optimize_audio_length, if_neg hb]
        simp only [hshort, if_true]
        have hl : (loopAppend a (idealLength bpm) ⌈idealLength bpm⌉₊
            AudioSeg.emptySeg).isSome := by
          apply loopAppend_isSome_of_le _ _ _ _ ha
          have h1 : (1 : ℚ) ≤ (a.len : ℚ) := by exact_mod_cast ha
          have h2 : idealLength bpm ≤ (⌈idealLength bpm⌉₊ : ℚ) := Nat.le_ceil _
          have h3 : (⌈idealLength bpm⌉₊ : ℚ) * 1 ≤ (⌈idealLength bpm⌉₊ : ℚ) * (a.len : ℚ) :=
            mul_le_mul_of_nonneg_left h1 (by positivity)
          simp only [AudioSeg.emptySeg]
          push_cast
          linarith
        rcases hres : loopAppend a (idealLength bpm) ⌈idealLength bpm⌉₊
            AudioSeg.emptySeg with _ | looped
        · rw [hres] at hl; cases hl
        · rfl
      · exact ⟨0, by rw [optimize_audio_length, if_neg hb]; simp only [hshort, if_false]; rfl⟩
  · intro layers d hpos
    rcases hne : layers with _ | ⟨l, rest⟩
    · exact ⟨0, by rw [generate_mix_audio]; rfl⟩
    · refine ⟨d, ?_⟩
      rw [generate_mix_audio, if_neg (by simp)]
      have hm := mixLayers_isSome d (l :: rest) (AudioSeg.silent d) (hne ▸ hpos)
      rcases hres : mixLayers d d (l :: rest) (AudioSeg.silent d) with _ | m
      · rw [hres] at hm; cases hm
      · rfl
  · intro a bpm fuel ha hideal
    have hb : bpm ≠ 0 := by
      intro h
      rw [h] at hideal
      norm_num [idealLength] at hideal
    rw [optimize_audio_length, if_neg hb]
    rw [if_pos (by rw [ha]; exact_mod_cast hideal)]
    rw [loopAppend_zero_none a (idealLength bpm) ha hideal fuel AudioSeg.emptySeg rfl]
  · intro l rest d fuel h0 hd
    rw [generate_mix_audio, if_neg (by simp)]
    rw [mixLayers_none_of_zero (l :: rest) fuel d _ hd ⟨l, by simp, h0⟩]

/-- Witness for C10: a 100 ms segment at 128 BPM terminates; a single
positive layer renders; a zero-length segment diverges in both loops. -/
theorem repeat_append_loops_terminate_witness :
    (∃ fuel, (optimize_audio_length fuel ⟨100⟩ 128).isSome) ∧
    (∃ fuel, (generate_mix_audio fuel
      [⟨Category.drums, "kick.wav", ⟨2⟩, 128, none, 1/2⟩] 5).isSome) ∧
    optimize_audio_length 3 ⟨0⟩ 128 = none ∧
    generate_mix_audio 3 [⟨Category.drums, "kick.wav", ⟨0⟩, 128, none, 1/2⟩] 5 = none :=
  ⟨repeat_append_loops_terminate.1 ⟨100⟩ 128 (by norm_num),
   repeat_append_loops_terminate.2.1 [⟨Category.drums, "kick.wav", ⟨2⟩, 128, none, 1/2⟩]
     5 (by intro l hl; simp at hl; subst hl; norm_num),
   repeat_append_loops_terminate.2.2.1 ⟨0⟩ 128 3 rfl (by norm_num [idealLength]),
   repeat_append_loops_terminate.2.2.2 ⟨Category.drums, "kick.wav", ⟨0⟩, 128, none, 1/2⟩
     [] 5 3 rfl (by norm_num)⟩

/-! ## C5: the only fatal conditions -/

/-- For a non-empty sample list, `create_multilayer_composition` never
raises: every per-sample failure is absorbed by the per-layer
`try/except`. -/
lemma create_no_error (cfg : MixerCfg) (env : Env) (fuel : ℕ) (st : Caches)
    (rng : RNG) (samples : List String) (n : ℕ) (hs : samples ≠ []) :
    ∀ e, create_multilayer_composition cfg env fuel st rng samples n ≠
      some (.error e) := by
  intro e h
  rcases hcl : classify_samples cfg env st samples with ⟨cats, st1⟩
  simp only [create_multilayer_composition, if_neg hs, hcl] at h
  repeat' split at h
  all_goals simp_all

/-- For a non-empty layer list, `generate_mix_audio` never raises. -/
lemma generate_mix_audio_no_error (fuel : ℕ) (layers : List Layer) (d : ℕ)
    (hl : layers ≠ []) :
    ∀ e, generate_mix_audio fuel layers d ≠ some (.error e) := by
  intro e h
  rw [generate_mix_audio, if_neg hl] at h
  rcases hm : mixLayers fuel d layers (AudioSeg.silent d) with _ | m
  · rw [hm] at h; cases h
  · rw [hm] at h; cases h

/-- An error out of `create_multilayer_composition` only arises from an
empty sample list. -/
lemma create_error_implies_empty (cfg : MixerCfg) (env : Env) (fuel : ℕ)
    (st : Caches) (rng : RNG) (samples : List String) (n : ℕ) :
    ∀ e, create_multilayer_composition cfg env fuel st rng samples n =
      some (.error e) → samples = [] ∧ e = "No audio files found" := by
  intro e h
  by_cases hs : samples = []
  · rw [create_multilayer_composition, if_pos hs] at h
    cases h
    exact ⟨hs, rfl⟩
  · exact absurd h (create_no_error cfg env fuel st rng samples n hs e)

/-- **C5.**  Composition generation over an empty sample set raises the
fatal `ValueError("No audio files found")`, surfaced through
`generate_complete_mix`; `generate_complete_mix` raises
`ValueError("Could not create composition")` whenever zero layers survive
selection; and these are the only fatal conditions — an error out of
`create_multilayer_composition` implies the sample set was empty, and an
error out of `generate_complete_mix` implies either an empty sample set or
a composition with zero layers (per-sample processing failures never
produce an error). -/
theorem fatal_error_conditions (cfg : MixerCfg) (env : Env) (fuel : ℕ)
    (st : Caches) (rng : RNG) (samples : List String) (n : ℕ) :
    (samples = [] →
      create_multilayer_composition cfg env fuel st rng samples n =
        some (.error "No audio files found") ∧
      generate_complete_mix cfg env fuel st rng samples n =
        some (.error "No audio files found")) ∧
    (∀ res, create_multilayer_composition cfg env fuel st rng samples n =
        some (.ok res) → res.layers = [] →
      generate_complete_mix cfg env fuel st rng samples n =
        some (.error "Could not create composition")) ∧
    (∀ e, create_multilayer_composition cfg env fuel st rng samples n =
        some (.error e) → samples = [] ∧ e = "No audio files found") ∧
    (∀ e, generate_complete_mix cfg env fuel st rng samples n = some (.error e) →
      samples = [] ∨
      ∃ res, create_multilayer_composition cfg env fuel st rng samples n =
          some (.ok res) ∧ res.layers = [] ∧ e = "Could not create composition") := by
  refine ⟨?_, ?_, ?_, ?_⟩
  · intro hs
    have hc : create_multilayer_composition cfg env fuel st rng samples n =
        some (.error "No audio files found") := by
      rw [create_multilayer_composition, if_pos hs]
    exact ⟨hc, by rw [generate_complete_mix, hc]⟩
  · intro res hres hlay
    simp only [generate_complete_mix, hres]
    rw [if_pos hlay]
  · exact create_error_implies_empty cfg env fuel st rng samples n
  · intro e h
    rcases hc : create_multilayer_composition cfg env fuel st rng samples n
        with _ | res0
    · simp only [generate_complete_mix, hc] at h
      cases h
    · rcases res0 with e0 | res
      · simp only [generate_complete_mix, hc] at h
        cases h
        exact Or.inl
          ((create_error_implies_empty cfg env fuel st rng samples n e hc).1)
      · simp only [generate_complete_mix, hc] at h
        split_ifs at h with hlay
        · cases h
          exact Or.inr ⟨res, rfl, hlay, rfl⟩
        · rcases hg : generate_mix_audio fuel res.layers 30000 with _ | g
          · rw [hg] at h; cases h
          · rcases g with eg | mix
            · exact absurd hg (generate_mix_audio_no_error fuel res.layers 30000 hlay eg)
            · rw [hg] at h; cases h

/-- Witness for C5: over the empty sample list both entry points raise
`ValueError("No audio files found")`, and a run whose only sample fails to
decode yields a zero-layer composition, upon which `generate_complete_mix`
raises `ValueError("Could not create composition")`. -/
theorem fatal_error_conditions_witness :
    (create_multilayer_composition ⟨128, "8A", false⟩
      ⟨fun _ => none, fun _ => none, fun _ => none, fun _ _ _ => none, ""⟩
      1 ⟨[], []⟩ ⟨fun _ => 0, 0⟩ [] 3 = some (.error "No audio files found") ∧
    generate_complete_mix ⟨128, "8A", false⟩
      ⟨fun _ => none, fun _ => none, fun _ => none, fun _ _ _ => none, ""⟩
      1 ⟨[], []⟩ ⟨fun _ => 0, 0⟩ [] 3 = some (.error "No audio files found")) ∧
    generate_complete_mix ⟨128, "8A", false⟩
      ⟨fun _ => none, fun _ => none, fun _ => none, fun _ _ _ => none, "ts"⟩
      10 ⟨[], []⟩ ⟨fun _ => (1/2 : ℚ), 0⟩ ["kick.wav"] 3 =
        some (.error "Could not create composition") :=
  ⟨(fatal_error_conditions ⟨128, "8A", false⟩
      ⟨fun _ => none, fun _ => none, fun _ => none, fun _ _ _ => none, ""⟩
      1 ⟨[], []⟩ ⟨fun _ => 0, 0⟩ [] 3).1 rfl,
   (fatal_error_conditions ⟨128, "8A", false⟩
      ⟨fun _ => none, fun _ => none, fun _ => none, fun _ _ _ => none, "ts"⟩
      10 ⟨[], []⟩ ⟨fun _ => (1/2 : ℚ), 0⟩ ["kick.wav"] 3).2.1
     ⟨[], ⟨[], 128, "8A", "standard", "ts"⟩,
      ⟨[("kick.wav", 128)], [("kick.wav", none)]⟩, ⟨fun _ => (1/2 : ℚ), 3⟩⟩
     (by with_unfolding_all rfl) rfl⟩

/-! ## C8: volumes are drawn from fixed positive sub-ranges -/

/-- The inclusion step only advances the cursor of the random stream. -/
lemma inclusionStep_seq (probs : Category → ℚ) (cats : Category → List SampleInfo) :
    ∀ (l : List Category) (r : RNG), ((inclusionStep probs cats l r).2).seq = r.seq := by
  intro l
  induction l with
  | nil => intro r; rfl
  | cons c rest ih =>
    intro r
    rw [inclusionStep]
    split_ifs with hc
    · simp only [RNG.next]
      rcases hrec : inclusionStep probs cats rest ⟨r.seq, r.idx + 1⟩ with ⟨tail, r2⟩
      have := ih ⟨r.seq, r.idx + 1⟩
      rw [hrec] at this
      simpa [hrec] using this
    · exact ih r

/-- Sampling without replacement only advances the cursor of the random
stream. -/
lemma sampleWOR_seq :
    ∀ (k : ℕ) (pop : List Category) (r : RNG), ((sampleWOR pop k r).2).seq = r.seq := by
  intro k
  induction k with
  | zero => intro pop r; cases pop <;> rfl
  | succ k ih =>
    intro pop r
    cases pop with
    | nil => rfl
    | cons x₀ pop =>
      rw [sampleWOR]
      simp only [RNG.next]
      rcases hrec : sampleWOR (removeAt (x₀ :: pop) (drawIndex (r.seq r.idx) (x₀ :: pop).length))
          k ⟨r.seq, r.idx + 1⟩ with ⟨rest, r2⟩
      have := ih (removeAt (x₀ :: pop) (drawIndex (r.seq r.idx) (x₀ :: pop).length))
          ⟨r.seq, r.idx + 1⟩
      rw [hrec] at this
      simpa [hrec] using this

/-- Every volume range has `0 < min ≤ max ≤ 1`. -/
lemma volume_ranges_bounds :
    ∀ c : Category, 0 < (volume_ranges c).1 ∧ (volume_ranges c).1 ≤ (volume_ranges c).2 ∧
      (volume_ranges c).2 ≤ 1 := by
  intro c
  cases c <;>
    exact ⟨by norm_num [volume_ranges], by norm_num [volume_ranges],
           by norm_num [volume_ranges]⟩

/-- Every layer appended by the selection loop carries a volume inside its
category's `volume_ranges` entry, provided the random stream draws in
`[0, 1)`. -/
lemma selectLoop_volumes (cfg : MixerCfg) (env : Env) (fuel : ℕ)
    (compatKeys : List String) (cats : Category → List SampleInfo) :
    ∀ (sel : List Category) (layers : List Layer) (infos : List LayerInfo) (r : RNG)
      (out : List Layer × List LayerInfo × RNG),
      (∀ k, 0 ≤ r.seq k ∧ r.seq k < 1) →
      (∀ l ∈ layers, (volume_ranges l.category).1 ≤ l.volume ∧
        l.volume ≤ (volume_ranges l.category).2) →
      selectLoop cfg env fuel compatKeys cats sel (layers, infos, r) = some out →
      ∀ l ∈ out.1, (volume_ranges l.category).1 ≤ l.volume ∧
        l.volume ≤ (volume_ranges l.category).2 := by
  intro sel
  induction sel with
  | nil =>
    intro layers infos r out hseq hacc hsel
    rw [selectLoop] at hsel
    cases hsel
    exact hacc
  | cons c rest ih =>
    intro layers infos r out hseq hacc hsel
    rw [selectLoop] at hsel
    split_ifs at hsel with hcat
    · exact ih layers infos r out hseq hacc hsel
    · rcases hstu : samplesToUse c compatKeys (cats c) with _ | ⟨t₀, ts⟩
      · rw [hstu] at hsel
        exact ih layers infos r out hseq hacc hsel
      · rw [hstu] at hsel
        simp only [choiceDraw, RNG.next] at hsel
        rcases hdec : env.decode ((t₀ :: ts).getD
            (drawIndex (r.seq r.idx) (t₀ :: ts).length) t₀).1 with _ | audio0
        · simp only [hdec] at hsel
          exact ih layers infos ⟨r.seq, r.idx + 1⟩ out hseq hacc hsel
        · simp only [hdec] at hsel
          rcases hopt : optimize_audio_length fuel audio0 cfg.target_bpm
              with _ | opt
          · simp only [hopt] at hsel
            cases hsel
          · rcases opt with eo | audio1
            · simp only [hopt] at hsel
              exact ih layers infos ⟨r.seq, r.idx + 1⟩ out hseq hacc hsel
            · simp only [hopt, uniformDraw, RNG.next] at hsel
              refine ih _ _ ⟨r.seq, r.idx + 1 + 1⟩ out hseq ?_ hsel
              intro l hl
              rcases List.mem_append.mp hl with hold | hnew
              · exact hacc l hold
              · have hu := hseq (r.idx + 1)
                rcases List.mem_singleton.mp hnew with rfl
                constructor
                · simp only []
                  have h1 : 0 ≤ ((volume_ranges c).2 - (volume_ranges c).1) *
                      r.seq (r.idx + 1) := by
                    apply mul_nonneg
                    · have := (volume_ranges_bounds c).2.1; linarith
                    · exact hu.1
                  linarith
                · simp only []
                  have hle := (volume_ranges_bounds c).2.1
                  have h2 : ((volume_ranges c).2 - (volume_ranges c).1) *
                      r.seq (r.idx + 1) ≤
                      ((volume_ranges c).2 - (volume_ranges c).1) * 1 := by
                    apply mul_le_mul_of_nonneg_left (le_of_lt hu.2)
                    linarith
                  linarith

/-- **C8.** Every category's `volume_ranges` entry is a closed sub-range
`[min, max]` with `0 < min ≤ max ≤ 1`, and every layer produced by
`create_multilayer_composition` (for a random stream drawing in `[0, 1)`)
carries a volume inside its category's range — in particular every volume
reaching the assembler is strictly positive, so the gain computation
`20·log10(volume)` is applied to a positive argument and the
unbounded-negative-gain edge case at volume 0 is unreachable. -/
theorem layer_volumes_in_range :
    (∀ c : Category, 0 < (volume_ranges c).1 ∧ (volume_ranges c).1 ≤ (volume_ranges c).2 ∧
      (volume_ranges c).2 ≤ 1) ∧
    ∀ (cfg : MixerCfg) (env : Env) (fuel : ℕ) (st : Caches) (rng : RNG)
      (samples : List String) (n : ℕ) (res : CreateResult),
      (∀ k, 0 ≤ rng.seq k ∧ rng.seq k < 1) →
      create_multilayer_composition cfg env fuel st rng samples n = some (.ok res) →
      ∀ l ∈ res.layers, (volume_ranges l.category).1 ≤ l.volume ∧
        l.volume ≤ (volume_ranges l.category).2 ∧ 0 < l.volume ∧ l.volume ≤ 1 := by
  refine ⟨volume_ranges_bounds, ?_⟩
  intro cfg env fuel st rng samples n res hseq h
  by_cases hs : samples = []
  · rw [create_multilayer_composition, if_pos hs] at h
    cases h
  · rcases hcl : classify_samples cfg env st samples with ⟨cats, st1⟩
    rcases hinc : inclusionStep
        (if cfg.experimental_mode then EXPERIMENTAL_PROBABILITIES
         else STANDARD_PROBABILITIES) cats priority_order rng with ⟨avail0, rng1⟩
    simp only [create_multilayer_composition, if_neg hs, hcl, hinc] at h
    have hseq1 : rng1.seq = rng.seq := by
      have := inclusionStep_seq
        (if cfg.experimental_mode then EXPERIMENTAL_PROBABILITIES
         else STANDARD_PROBABILITIES) cats priority_order rng
      rw [hinc] at this
      exact this
    generalize hmode : (if cfg.experimental_mode = true then "experimental" else "standard")
      = modeStr at h
    generalize havv : (if avail0 = [] then populatedCategories cats else avail0) = avail at h
    split_ifs at h with hav
    · cases h
      intro l hl
      cases hl
    · rcases hsw : sampleWOR avail (min n avail.length) rng1 with ⟨selected, rng2⟩
      have hseq2 : rng2.seq = rng1.seq := by
        have := sampleWOR_seq (min n avail.length) avail rng1
        rw [hsw] at this
        exact this
      rw [hsw] at h
      rcases hsl : selectLoop cfg env fuel (get_compatible_keys cfg.current_key) cats
          selected ([], [], rng2) with _ | ⟨ls, infos, rng3⟩
      · rw [hsl] at h; cases h
      · rw [hsl] at h
        cases h
        intro l hl
        have hseq2' : ∀ k, 0 ≤ rng2.seq k ∧ rng2.seq k < 1 := by
          rw [hseq2, hseq1]; exact hseq
        have hvol := selectLoop_volumes cfg env fuel (get_compatible_keys cfg.current_key)
          cats selected [] [] rng2 (ls, infos, rng3) hseq2'
          (by intro x hx; cases hx) hsl l hl
        have hb := volume_ranges_bounds l.category
        exact ⟨hvol.1, hvol.2, by linarith [hvol.1, hb.1], by linarith [hvol.2, hb.2.2]⟩

/-- Witness for C8: the concrete single-sample run with draws `1/2`
produces one drums layer with volume `13/20 ∈ [0.4, 0.9]`. -/
theorem layer_volumes_in_range_witness :
    ∀ l ∈ [(⟨Category.drums, "kick.wav", ⟨7500⟩, 128, none, 13/20⟩ : Layer)],
      (volume_ranges l.category).1 ≤ l.volume ∧
      l.volume ≤ (volume_ranges l.category).2 ∧ 0 < l.volume ∧ l.volume ≤ 1 :=
  layer_volumes_in_range.2 ⟨128, "8A", false⟩
    ⟨fun _ => none, fun _ => none, fun _ => some ⟨4000⟩, fun a _ _ => some a, "ts"⟩
    10 ⟨[], []⟩ ⟨fun _ => (1/2 : ℚ), 0⟩ ["kick.wav"] 3
    ⟨[⟨Category.drums, "kick.wav", ⟨7500⟩, 128, none, 13/20⟩],
     ⟨[⟨Category.drums, "kick.wav", 128, none, 13/20⟩], 128, "8A", "standard", "ts"⟩,
     ⟨[("kick.wav", 128)], [("kick.wav", none)]⟩,
     ⟨fun _ => (1/2 : ℚ), 4⟩⟩
    (by intro k; norm_num) (by with_unfolding_all rfl)

/-! ## C4: layer count, category distinctness, and the fallback -/

/-- The candidate category set of `create_multilayer_composition`: the
stochastic-inclusion result, falling back to every populated category when
it is empty. -/
def candidateCategories (cfg : MixerCfg) (env : Env) (st : Caches) (rng : RNG)
    (samples : List String) : List Category :=
  let cats := (classify_samples cfg env st samples).1
  let avail0 := (inclusionStep
    (if cfg.experimental_mode then EXPERIMENTAL_PROBABILITIES
     else STANDARD_PROBABILITIES) cats priority_order rng).1
  if avail0 = [] then populatedCategories cats else avail0

lemma priority_order_nodup : priority_order.Nodup := by decide

lemma mem_priority_order (c : Category) : c ∈ priority_order := by
  cases c <;> decide

/-- Removing an index yields a sublist. -/
lemma removeAt_sublist (l : List α) (i : ℕ) : List.Sublist (removeAt l i) l := by
  rw [removeAt]
  have h1 : List.Sublist (l.drop (i + 1)) (l.drop i) := by
    have h2 : l.drop (i + 1) = (l.drop i).drop 1 := by
      rw [List.drop_drop, Nat.add_comm]
    rw [h2]
    exact List.drop_sublist 1 (l.drop i)
  have h3 := h1.append_left (l.take i)
  rw [List.take_append_drop] at h3
  exact h3

lemma length_removeAt {l : List α} {i : ℕ} (h : i < l.length) :
    (removeAt l i).length = l.length - 1 := by
  rw [removeAt, List.length_append, List.length_take, List.length_drop]
  omega

lemma getD_mem : ∀ (l : List α) (i : ℕ) (d : α), i < l.length → l.getD i d ∈ l := by
  intro l
  induction l with
  | nil => intro i d h; simp at h
  | cons a t ih =>
    intro i d h
    cases i with
    | zero => simp [List.getD]
    | succ i =>
      have := ih i d (by simpa using Nat.lt_of_succ_lt_succ h)
      simp [List.getD] at this ⊢
      exact Or.inr this

/-- In a duplicate-free list, the element at `i` does not survive removal
of index `i`. -/
lemma getD_not_mem_removeAt :
    ∀ (l : List α) (i : ℕ) (d : α), l.Nodup → i < l.length →
      l.getD i d ∉ removeAt l i := by
  intro l
  induction l with
  | nil => intro i d _ h; simp at h
  | cons a t ih =>
    intro i d hnd h
    cases i with
    | zero =>
      simp only [List.getD, removeAt, List.take_zero, List.drop_succ_cons,
        List.drop_zero, List.nil_append]
      simpa using (List.nodup_cons.mp hnd).1
    | succ i =>
      have hi : i < t.length := by simpa using Nat.lt_of_succ_lt_succ h
      have hrm : removeAt (a :: t) (i + 1) = a :: removeAt t i := by
        simp [removeAt, List.take_succ_cons, List.drop_succ_cons]
      rw [hrm]
      intro hmem
      rcases List.mem_cons.mp hmem with heq | hmem2
      · have : List.getD (a :: t) (i + 1) d ∈ t := by
          have := getD_mem t i d hi
          simpa [List.getD] using this
        rw [heq] at this
        exact (List.nodup_cons.mp hnd).1 this
      · have : List.getD (a :: t) (i + 1) d = t.getD i d := by simp [List.getD]
        rw [this] at hmem2
        exact ih i d (List.nodup_cons.mp hnd).2 hi hmem2

lemma drawIndex_lt {u : ℚ} {n : ℕ} (h : 0 < n) : drawIndex u n < n := by
  rw [drawIndex]
  omega

/-- `random.sample(pop, k)` returns `min k |pop|` elements. -/
lemma sampleWOR_length :
    ∀ (k : ℕ) (pop : List α) (r : RNG),
      ((sampleWOR pop k r).1).length = min k pop.length := by
  intro k
  induction k with
  | zero => intro pop r; cases pop <;> simp [sampleWOR]
  | succ k ih =>
    intro pop r
    cases pop with
    | nil => simp [sampleWOR]
    | cons x₀ t =>
      rw [sampleWOR]
      simp only [RNG.next]
      rcases hrec : sampleWOR (removeAt (x₀ :: t) (drawIndex (r.seq r.idx) (x₀ :: t).length))
          k ⟨r.seq, r.idx + 1⟩ with ⟨rest, r2⟩
      have hlen := ih (removeAt (x₀ :: t) (drawIndex (r.seq r.idx) (x₀ :: t).length))
        ⟨r.seq, r.idx + 1⟩
      rw [hrec] at hlen
      have hidx : drawIndex (r.seq r.idx) (x₀ :: t).length < (x₀ :: t).length :=
        drawIndex_lt (by simp)
      have hrm := length_removeAt hidx
      simp only [hrec]
      simp only [List.length_cons] at hlen hrm hidx ⊢
      omega

/-- `random.sample` over a duplicate-free population is duplicate-free and
draws only population elements. -/
lemma sampleWOR_nodup_subset :
    ∀ (k : ℕ) (pop : List α) (r : RNG), pop.Nodup →
      ((sampleWOR pop k r).1).Nodup ∧ ∀ x ∈ (sampleWOR pop k r).1, x ∈ pop := by
  intro k
  induction k with
  | zero =>
    intro pop r _
    cases pop <;> simp [sampleWOR]
  | succ k ih =>
    intro pop r hnd
    cases pop with
    | nil => simp [sampleWOR]
    | cons x₀ t =>
      rw [sampleWOR]
      simp only [RNG.next]
      rcases hrec : sampleWOR (removeAt (x₀ :: t) (drawIndex (r.seq r.idx) (x₀ :: t).length))
          k ⟨r.seq, r.idx + 1⟩ with ⟨rest, r2⟩
      have hidx : drawIndex (r.seq r.idx) (x₀ :: t).length < (x₀ :: t).length :=
        drawIndex_lt (by simp)
      have hsub := removeAt_sublist (x₀ :: t) (drawIndex (r.seq r.idx) (x₀ :: t).length)
      have hprev := ih (removeAt (x₀ :: t) (drawIndex (r.seq r.idx) (x₀ :: t).length))
        ⟨r.seq, r.idx + 1⟩ (hnd.sublist hsub)
      rw [hrec] at hprev
      simp only [hrec]
      constructor
      · rw [List.nodup_cons]
        refine ⟨fun hmem => ?_, hprev.1⟩
        exact getD_not_mem_removeAt (x₀ :: t) _ x₀ hnd hidx (hprev.2 _ hmem)
      · intro x hx
        rcases List.mem_cons.mp hx with rfl | hx2
        · exact getD_mem (x₀ :: t) _ x₀ hidx
        · exact hsub.subset (hprev.2 x hx2)

/-- The stochastic inclusion keeps an ordered sub-selection of its input
category list. -/
lemma inclusionStep_sublist (probs : Category → ℚ) (cats : Category → List SampleInfo) :
    ∀ (l : List Category) (r : RNG), List.Sublist (inclusionStep probs cats l r).1 l := by
  intro l
  induction l with
  | nil => intro r; simp [inclusionStep]
  | cons c rest ih =>
    intro r
    rw [inclusionStep]
    split_ifs with hc
    · simp only [RNG.next]
      rcases hrec : inclusionStep probs cats rest ⟨r.seq, r.idx + 1⟩ with ⟨tail, r2⟩
      have := ih ⟨r.seq, r.idx + 1⟩
      rw [hrec] at this
      simp only [hrec]
      split_ifs with hu
      · exact this.cons₂ c
      · exact this.cons c
    · exact (ih r).cons c

/-- The categories of the layers produced by the selection loop extend the
accumulator by an ordered sub-selection of the remaining categories. -/
lemma selectLoop_cats_sublist (cfg : MixerCfg) (env : Env) (fuel : ℕ)
    (compatKeys : List String) (cats : Category → List SampleInfo) :
    ∀ (sel : List Category) (layers : List Layer) (infos : List LayerInfo) (r : RNG)
      (out : List Layer × List LayerInfo × RNG),
      selectLoop cfg env fuel compatKeys cats sel (layers, infos, r) = some out →
      ∃ s, (out.1.map (·.category)) = layers.map (·.category) ++ s ∧
        List.Sublist s sel := by
  intro sel
  induction sel with
  | nil =>
    intro layers infos r out hsel
    rw [selectLoop] at hsel
    cases hsel
    exact ⟨[], by simp, List.nil_sublist []⟩
  | cons c rest ih =>
    intro layers infos r out hsel
    rw [selectLoop] at hsel
    split_ifs at hsel with hcat
    · rcases ih layers infos r out hsel with ⟨s, hs, hsub⟩
      exact ⟨s, hs, hsub.cons c⟩
    · rcases hstu : samplesToUse c compatKeys (cats c) with _ | ⟨t₀, ts⟩
      · rw [hstu] at hsel
        rcases ih layers infos r out hsel with ⟨s, hs, hsub⟩
        exact ⟨s, hs, hsub.cons c⟩
      · rw [hstu] at hsel
        simp only [choiceDraw, RNG.next] at hsel
        rcases hdec : env.decode ((t₀ :: ts).getD
            (drawIndex (r.seq r.idx) (t₀ :: ts).length) t₀).1 with _ | audio0
        · simp only [hdec] at hsel
          rcases ih layers infos ⟨r.seq, r.idx + 1⟩ out hsel with ⟨s, hs, hsub⟩
          exact ⟨s, hs, hsub.cons c⟩
        · simp only [hdec] at hsel
          rcases hopt : optimize_audio_length fuel audio0 cfg.target_bpm with _ | opt
          · simp only [hopt] at hsel
            cases hsel
          · rcases opt with eo | audio1
            · simp only [hopt] at hsel
              rcases ih layers infos ⟨r.seq, r.idx + 1⟩ out hsel with ⟨s, hs, hsub⟩
              exact ⟨s, hs, hsub.cons c⟩
            · simp only [hopt, uniformDraw, RNG.next] at hsel
              rcases ih _ _ ⟨r.seq, r.idx + 1 + 1⟩ out hsel with ⟨s, hs, hsub⟩
              refine ⟨c :: s, ?_, hsub.cons₂ c⟩
              rw [hs]
              simp

/-- Classifying a non-empty sample list populates at least one category. -/
lemma populatedCategories_ne_nil (cfg : MixerCfg) (env : Env) (st : Caches)
    (samples : List String) (hs : samples ≠ []) :
    populatedCategories (classify_samples cfg env st samples).1 ≠ [] := by
  rcases List.exists_cons_of_ne_nil hs with ⟨s, rest, rfl⟩
  have hmem : s ∈ (((classify_samples cfg env st (s :: rest)).1
      (categoryOf (lowerString (basename s)))).map (·.1)) := by
    rw [classify_samples_paths]
    apply List.mem_filter.mpr
    simp
  have hne : (classify_samples cfg env st (s :: rest)).1
      (categoryOf (lowerString (basename s))) ≠ [] := by
    intro h
    rw [h] at hmem
    cases hmem
  have : categoryOf (lowerString (basename s)) ∈
      populatedCategories (classify_samples cfg env st (s :: rest)).1 := by
    rw [populatedCategories]
    apply List.mem_filter.mpr
    exact ⟨mem_priority_order _, by simpa using hne⟩
  exact List.ne_nil_of_mem this

/-- **C4.** Over a non-empty sample set, a successful
`create_multilayer_composition` returns at most
`min(num_layers, |candidates|)` layers, their categories are pairwise
distinct (at most one chosen sample per category), the candidate set falls
back to every populated category when the stochastic inclusion selects
none, and the populated set is non-empty whenever any samples exist. -/
theorem composition_layer_bounds (cfg : MixerCfg) (env : Env) (fuel : ℕ)
    (st : Caches) (rng : RNG) (samples : List String) (n : ℕ) (res : CreateResult)
    (hs : samples ≠ [])
    (h : create_multilayer_composition cfg env fuel st rng samples n = some (.ok res)) :
    res.layers.length ≤ min n (candidateCategories cfg env st rng samples).length ∧
    (res.layers.map (·.category)).Nodup ∧
    ((inclusionStep (if cfg.experimental_mode then EXPERIMENTAL_PROBABILITIES
        else STANDARD_PROBABILITIES) (classify_samples cfg env st samples).1
        priority_order rng).1 = [] →
      candidateCategories cfg env st rng samples =
        populatedCategories (classify_samples cfg env st samples).1) ∧
    populatedCategories (classify_samples cfg env st samples).1 ≠ [] := by
  have hpop := populatedCategories_ne_nil cfg env st samples hs
  rcases hcl : classify_samples cfg env st samples with ⟨cats, st1⟩
  rcases hinc : inclusionStep
      (if cfg.experimental_mode then EXPERIMENTAL_PROBABILITIES
       else STANDARD_PROBABILITIES) cats priority_order rng with ⟨avail0, rng1⟩
  have hcand : candidateCategories cfg env st rng samples =
      (if avail0 = [] then populatedCategories cats else avail0) := by
    simp only [candidateCategories, hcl, hinc]
  have hfallback : avail0 = [] →
      candidateCategories cfg env st rng samples = populatedCategories cats := by
    intro h0
    rw [hcand, if_pos h0]
  rw [hcl] at hpop
  have hanodup : (if avail0 = [] then populatedCategories cats else avail0).Nodup := by
    split_ifs
    · exact priority_order_nodup.filter _
    · have := inclusionStep_sublist
        (if cfg.experimental_mode then EXPERIMENTAL_PROBABILITIES
         else STANDARD_PROBABILITIES) cats priority_order rng
      rw [hinc] at this
      exact priority_order_nodup.sublist this
  have hane : (if avail0 = [] then populatedCategories cats else avail0) ≠ [] := by
    split_ifs with h0
    · exact hpop
    · exact h0
  simp only [create_multilayer_composition, if_neg hs, hcl, hinc] at h
  generalize hmode : (if cfg.experimental_mode = true then "experimental" else "standard")
    = modeStr at h
  generalize havv : (if avail0 = [] then populatedCategories cats else avail0) = avail at h
  rw [havv] at hcand hanodup hane
  split_ifs at h with hav
  · exact absurd hav hane
  · rcases hsw : sampleWOR avail (min n avail.length) rng1 with ⟨selected, rng2⟩
    rw [hsw] at h
    have hsellen : selected.length = min n avail.length := by
      have := sampleWOR_length (min n avail.length) avail rng1
      rw [hsw] at this
      simp only [this]
      omega
    have hselnodup : selected.Nodup := by
      have := sampleWOR_nodup_subset (min n avail.length) avail rng1 hanodup
      rw [hsw] at this
      exact this.1
    rcases hsl : selectLoop cfg env fuel (get_compatible_keys cfg.current_key) cats
        selected ([], [], rng2) with _ | ⟨ls, infos, rng3⟩
    · rw [hsl] at h; cases h
    · rw [hsl] at h
      cases h
      rcases selectLoop_cats_sublist cfg env fuel (get_compatible_keys cfg.current_key)
          cats selected [] [] rng2 (ls, infos, rng3) hsl with ⟨sq, hsq, hsqsub⟩
      simp only [List.map_nil, List.nil_append] at hsq
      refine ⟨?_, ?_, fun h0 => hfallback h0, hpop⟩
      · have hlen : ls.length = sq.length := by
          have := congrArg List.length hsq
          simpa using this
        rw [hcand]
        show ls.length ≤ min n avail.length
        have := hsqsub.length_le
        omega
      · rw [hsq]
        exact hselnodup.sublist hsqsub

/-- Witness for C4: the concrete single-sample run returns one layer, with
distinct categories and a non-empty populated set. -/
theorem composition_layer_bounds_witness :
    (1 ≤ min 3 (candidateCategories ⟨128, "8A", false⟩
      ⟨fun _ => none, fun _ => none, fun _ => some ⟨4000⟩, fun a _ _ => some a, "ts"⟩
      ⟨[], []⟩ ⟨fun _ => (1/2 : ℚ), 0⟩ ["kick.wav"]).length) ∧
    ([(⟨Category.drums, "kick.wav", ⟨7500⟩, 128, none, 13/20⟩ : Layer)].map
      (·.category)).Nodup :=
  ⟨(composition_layer_bounds ⟨128, "8A", false⟩
      ⟨fun _ => none, fun _ => none, fun _ => some ⟨4000⟩, fun a _ _ => some a, "ts"⟩
      10 ⟨[], []⟩ ⟨fun _ => (1/2 : ℚ), 0⟩ ["kick.wav"] 3
      ⟨[⟨Category.drums, "kick.wav", ⟨7500⟩, 128, none, 13/20⟩],
       ⟨[⟨Category.drums, "kick.wav", 128, none, 13/20⟩], 128, "8A", "standard", "ts"⟩,
       ⟨[("kick.wav", 128)], [("kick.wav", none)]⟩,
       ⟨fun _ => (1/2 : ℚ), 4⟩⟩
      (by simp) (by with_unfolding_all rfl)).1,
   (composition_layer_bounds ⟨128, "8A", false⟩
      ⟨fun _ => none, fun _ => none, fun _ => some ⟨4000⟩, fun a _ _ => some a, "ts"⟩
      10 ⟨[], []⟩ ⟨fun _ => (1/2 : ℚ), 0⟩ ["kick.wav"] 3
      ⟨[⟨Category.drums, "kick.wav", ⟨7500⟩, 128, none, 13/20⟩],
       ⟨[⟨Category.drums, "kick.wav", 128, none, 13/20⟩], 128, "8A", "standard", "ts"⟩,
       ⟨[("kick.wav", 128)], [("kick.wav", none)]⟩,
       ⟨fun _ => (1/2 : ℚ), 4⟩⟩
      (by simp) (by with_unfolding_all rfl)).2.1⟩

/-! ## C9: the random stream is the sole source of variation -/

/-- The observable selection outcome (chosen sample paths and volumes) of a
single-sample run, as a function of the configuration, the external
environment and the random stream only — no cache state appears. -/
def singleRunSummary (cfg : MixerCfg) (env : Env) (fuel : ℕ) (rng : RNG)
    (s : String) : Option (Except String (List String × List ℚ)) :=
  match env.decode s with
  | none => some (.ok ([], []))
  | some a0 =>
    match optimize_audio_length fuel a0 cfg.target_bpm with
    | none => none
    | some (.error _) => some (.ok ([], []))
    | some (.ok _) =>
      some (.ok ([s],
        [(volume_ranges (categoryOf (lowerString (basename s)))).1 +
          ((volume_ranges (categoryOf (lowerString (basename s)))).2 -
           (volume_ranges (categoryOf (lowerString (basename s)))).1) *
          rng.seq (rng.idx + 1 + 1 + 1)]))

/-- Stochastic inclusion over a single-sample bucket assignment: one draw,
kept or not. -/
lemma inclusionStep_single (probs : Category → ℚ) (c0 : Category) (t : SampleInfo)
    (r : RNG) :
    inclusionStep probs (fun c' => if c' = c0 then [t] else []) priority_order r =
      (if r.seq r.idx < probs c0 then [c0] else [], ⟨r.seq, r.idx + 1⟩) := by
  cases c0 <;> simp [inclusionStep, priority_order, RNG.next]

/-- The populated categories of a single-sample bucket assignment. -/
lemma populated_single (c0 : Category) (t : SampleInfo) :
    populatedCategories (fun c' => if c' = c0 then [t] else []) = [c0] := by
  cases c0 <;> simp [populatedCategories, priority_order]

/-- Sampling one element from a one-element population. -/
lemma sampleWOR_single (x : α) (r : RNG) :
    sampleWOR [x] 1 r = ([x], ⟨r.seq, r.idx + 1⟩) := by
  simp [sampleWOR, drawIndex, removeAt, RNG.next, Nat.min_zero]

/-- A one-element bucket is always its own `samples_to_use`. -/
lemma samplesToUse_singleton (c : Category) (ck : List String) (t : SampleInfo) :
    samplesToUse c ck [t] = [t] := by
  rcases t with ⟨pth, bpm, key⟩
  rw [samplesToUse, compatibleSubset]
  by_cases hp : c = .drums ∨ c = .fx ∨ c = .other
  · rw [if_pos hp]
    simp
  · rw [if_neg hp]
    cases key with
    | none => simp
    | some kk => by_cases hkk : kk ∈ ck <;> simp [hkk]

/-- The selection loop over the single category of a single-sample bucket:
the chosen sample is that sample; one choice draw and (on success) one
volume draw are consumed. -/
lemma selectLoop_single (cfg : MixerCfg) (env : Env) (fuel : ℕ)
    (ck : List String) (c0 : Category) (t : SampleInfo) (r : RNG) :
    selectLoop cfg env fuel ck (fun c' => if c' = c0 then [t] else []) [c0]
        ([], [], r) =
      match env.decode t.1 with
      | none => some ([], [], ⟨r.seq, r.idx + 1⟩)
      | some a0 =>
        match optimize_audio_length fuel a0 cfg.target_bpm with
        | none => none
        | some (.error _) => some ([], [], ⟨r.seq, r.idx + 1⟩)
        | some (.ok a1) =>
          some ([⟨c0, t.1,
                  (if t.2.1 > 0 ∧ |t.2.1 - cfg.target_bpm| > 1 then
                    change_tempo env a1 t.2.1 cfg.target_bpm else a1),
                  t.2.1, t.2.2,
                  (volume_ranges c0).1 + ((volume_ranges c0).2 - (volume_ranges c0).1) *
                    r.seq (r.idx + 1)⟩],
                [⟨c0, basename t.1, t.2.1, t.2.2,
                  (volume_ranges c0).1 + ((volume_ranges c0).2 - (volume_ranges c0).1) *
                    r.seq (r.idx + 1)⟩],
                ⟨r.seq, r.idx + 1 + 1⟩) := by
  have hdi : drawIndex (r.seq r.idx) 1 = 0 := by simp [drawIndex]
  rw [selectLoop]
  have hcats : (if c0 = c0 then [t] else ([] : List SampleInfo)) = [t] := if_pos rfl
  simp only [hcats, ite_true, samplesToUse_singleton, choiceDraw, RNG.next,
    List.length_singleton, hdi, List.getD_cons_zero]
  rw [if_neg (by simp : ¬([t] = ([] : List SampleInfo)))]
  rcases hdec : env.decode t.1 with _ | a0
  · simp only [hdec]
    rw [selectLoop]
  · simp only [hdec]
    rcases hopt : optimize_audio_length fuel a0 cfg.target_bpm with _ | o
    · simp only [hopt]
    · rcases o with e | a1
      · simp only [hopt]
        rw [selectLoop]
      · simp only [hopt, uniformDraw, RNG.next, selectLoop, List.nil_append]

/-- The observable selection outcome of a single-sample run does not depend
on the metadata caches: for every initial cache state the mapped result
equals `singleRunSummary`. -/
lemma create_single_summary (cfg : MixerCfg) (env : Env) (fuel : ℕ) (rng : RNG)
    (s : String) (n : ℕ) (hn : 1 ≤ n) (st : Caches) :
    (create_multilayer_composition cfg env fuel st rng [s] n).map
      (Except.map (fun res => (res.layers.map (·.sample), res.layers.map (·.volume))))
      = singleRunSummary cfg env fuel rng s := by
  rcases hb : get_bpm cfg env st s with ⟨b, st1⟩
  rcases hk : get_sample_key st1 s with ⟨k, st2⟩
  have hclassify : classify_samples cfg env st [s] =
      (fun c' => if c' = categoryOf (lowerString (basename s)) then [(s, b, k)] else [],
       st2) := by
    simp [classify_samples, hb, hk]
  have hmin : min n 1 = 1 := min_eq_right hn
  set c0 := categoryOf (lowerString (basename s)) with hc0
  set probs := if cfg.experimental_mode then EXPERIMENTAL_PROBABILITIES
    else STANDARD_PROBABILITIES with hprobs
  simp only [create_multilayer_composition, hclassify, inclusionStep_single,
    populated_single]
  rw [if_neg (by simp : ¬([s] = []))]
  have havail : (if (if rng.seq rng.idx < probs c0 then [c0] else []) = [] then [c0]
      else (if rng.seq rng.idx < probs c0 then [c0] else [])) = [c0] := by
    split_ifs <;> simp_all
  rw [havail]
  rw [if_neg (by simp : ¬([c0] = []))]
  simp only [List.length_cons, List.length_nil, Nat.zero_add, hmin, sampleWOR_single]
  rw [selectLoop_single]
  rw [singleRunSummary]
  rcases hdec : env.decode s with _ | a0
  · simp only [hdec]
    rfl
  · simp only [hdec]
    rcases hopt : optimize_audio_length fuel a0 cfg.target_bpm with _ | o
    · simp only [hopt]
      rfl
    · rcases o with e | a1
      · simp only [hopt]
        rfl
      · simp only [hopt]
        rfl

/-- **C9.** With the random draw sequence fixed, composition generation over
a single-sample (hence single-category) library is deterministic in its
selection: two runs differing only in the initial metadata-cache state
select the identical sample list and produce the identical volume list
— the pseudorandom stream is the sole source of variation, and the caches
influence only the recorded metadata, not the selection — and every
selected layer is the library's one sample. -/
theorem selection_independent_of_caches (cfg : MixerCfg) (env : Env) (fuel : ℕ)
    (st st' : Caches) (rng : RNG) (s : String) (n : ℕ) (res res' : CreateResult)
    (hn : 1 ≤ n)
    (h1 : create_multilayer_composition cfg env fuel st rng [s] n = some (.ok res))
    (h2 : create_multilayer_composition cfg env fuel st' rng [s] n = some (.ok res')) :
    res.layers.map (·.sample) = res'.layers.map (·.sample) ∧
    res.layers.map (·.volume) = res'.layers.map (·.volume) ∧
    ∀ l ∈ res.layers, l.sample = s := by
  have e1 := create_single_summary cfg env fuel rng s n hn st
  have e2 := create_single_summary cfg env fuel rng s n hn st'
  rw [h1] at e1
  rw [h2] at e2
  have e3 := e1.trans e2.symm
  simp only [Option.map_some', Except.map, Option.some.injEq, Except.ok.injEq,
    Prod.mk.injEq] at e3
  refine ⟨e3.1, e3.2, ?_⟩
  rw [singleRunSummary] at e1
  rcases hdec : env.decode s with _ | a0
  · simp only [hdec, Option.map_some', Except.map, Option.some.injEq, Except.ok.injEq,
      Prod.mk.injEq] at e1
    intro l hl
    have : l.sample ∈ res.layers.map (·.sample) := List.mem_map_of_mem _ hl
    rw [e1.1] at this
    cases this
  · simp only [hdec] at e1
    rcases hopt : optimize_audio_length fuel a0 cfg.target_bpm with _ | o
    · simp only [hopt] at e1
      simp at e1
    · rcases o with e | a1
      · simp only [hopt, Option.map_some', Except.map, Option.some.injEq, Except.ok.injEq,
          Prod.mk.injEq] at e1
        intro l hl
        have : l.sample ∈ res.layers.map (·.sample) := List.mem_map_of_mem _ hl
        rw [e1.1] at this
        cases this
      · simp only [hopt, Option.map_some', Except.map, Option.some.injEq, Except.ok.injEq,
          Prod.mk.injEq] at e1
        intro l hl
        have : l.sample ∈ res.layers.map (·.sample) := List.mem_map_of_mem _ hl
        rw [e1.1] at this
        simpa using this

/-- Witness for C9: a cold-cache run and a run whose caches hold different
metadata (tempo 99, key 3B) for the same file select the same sample and
the same volume. -/
theorem selection_independent_of_caches_witness :
    ([(⟨Category.drums, "kick.wav", ⟨7500⟩, 128, none, 13/20⟩ : Layer)].map (·.sample) =
      [(⟨Category.drums, "kick.wav", ⟨7500⟩, 99, some "3B", 13/20⟩ : Layer)].map (·.sample)) ∧
    ([(⟨Category.drums, "kick.wav", ⟨7500⟩, 128, none, 13/20⟩ : Layer)].map (·.volume) =
      [(⟨Category.drums, "kick.wav", ⟨7500⟩, 99, some "3B", 13/20⟩ : Layer)].map (·.volume)) ∧
    ∀ l ∈ [(⟨Category.drums, "kick.wav", ⟨7500⟩, 128, none, 13/20⟩ : Layer)],
      l.sample = "kick.wav" :=
  selection_independent_of_caches ⟨128, "8A", false⟩
    ⟨fun _ => none, fun _ => none, fun _ => some ⟨4000⟩, fun a _ _ => some a, "ts"⟩
    10 ⟨[], []⟩ ⟨[("kick.wav", 99)], [("kick.wav", some "3B")]⟩
    ⟨fun _ => (1/2 : ℚ), 0⟩ "kick.wav" 3
    ⟨[⟨Category.drums, "kick.wav", ⟨7500⟩, 128, none, 13/20⟩],
     ⟨[⟨Category.drums, "kick.wav", 128, none, 13/20⟩], 128, "8A", "standard", "ts"⟩,
     ⟨[("kick.wav", 128)], [("kick.wav", none)]⟩,
     ⟨fun _ => (1/2 : ℚ), 4⟩⟩
    ⟨[⟨Category.drums, "kick.wav", ⟨7500⟩, 99, some "3B", 13/20⟩],
     ⟨[⟨Category.drums, "kick.wav", 99, some "3B", 13/20⟩], 128, "8A", "standard", "ts"⟩,
     ⟨[("kick.wav", 99)], [("kick.wav", some "3B")]⟩,
     ⟨fun _ => (1/2 : ℚ), 4⟩⟩
    (by norm_num) (by with_unfolding_all rfl) (by with_unfolding_all rfl)

end MusicMixer
